import Mathlib

/-!
Verification of the letta-raycast extension's conversation store, account
registry, agent directory and streaming response engine.

The definitions below are a shallow embedding of the TypeScript sources:

* `src/types.ts` — data model (`Message`, `Conversation`, `ToolCall`),
  `generateConversationTitle`;
* `src/hooks/useConversations.ts` — `addMessage`, `updateLastMessage`
  (store state is modelled as the in-memory conversation list plus the
  LocalStorage-persisted list, `save` writes the latter);
* `src/hooks/useAccounts.ts` — `parseAccounts`;
* `src/hooks/useAgents.ts` — `fetchAgentsForAccount` and the aggregation
  in `useAgents` (`listAgents` below);
* `src/chat.tsx` — `sendMessage` and `extractAssistantContent`.

JavaScript idioms are made explicit: string truthiness (`""` is falsy,
so optional preference strings are modelled as `String` with `""`
standing for both the empty and the absent value, which the source never
distinguishes), `a || b` is `jsOrS`, `String.prototype.trim` is
`jsTrim` (restricted to the ASCII whitespace the source can encounter),
and the nondeterministic inputs (`Date.now`, `generateId`, the network)
are passed as explicit parameters.  JavaScript `Map` is modelled as an
insertion-ordered association list (`lookupAssoc` / `setAssoc`).
-/

namespace LettaRaycast

/-- JS `a || b` for strings: `""` is falsy. -/
def jsOrS (a b : String) : String :=
  if a = "" then b else a

/-- JS `a || b` where `a` may be `undefined` (`none`). -/
def jsOrOpt (a : Option String) (b : String) : String :=
  match a with
  | none => b
  | some s => jsOrS s b

/-- Whitespace recognised by `String.prototype.trim` (ASCII fragment). -/
def isJsWhitespace (c : Char) : Bool :=
  c = ' ' || c = '\t' || c = '\n' || c = '\r'

/-- JS `String.prototype.trim`. -/
def jsTrim (s : String) : String :=
  String.mk (((s.data.dropWhile isJsWhitespace).reverse.dropWhile isJsWhitespace).reverse)

/-! ## Data model (`src/types.ts`) -/

inductive Role where
  | user
  | assistant
deriving DecidableEq, Repr

/-- `ToolCall` from `src/types.ts`; the untyped `arguments` record is kept
as a raw string payload, which the core send path never inspects. -/
structure ToolCall where
  name : String
  arguments : Option String
  toolCallId : Option String
deriving DecidableEq, Repr

/-- `Message` from `src/types.ts`.  `toolCalls` is optional in the source
(`toolCalls?: ToolCall[]`), hence `Option (List ToolCall)`. -/
structure Message where
  id : String
  role : Role
  content : String
  timestamp : Nat
  reasoning : Option String
  toolCalls : Option (List ToolCall)
deriving DecidableEq, Repr

/-- `Conversation` from `src/types.ts` (the display colour is an
enumerated UI constant, modelled as a number). -/
structure Conversation where
  id : String
  agentId : String
  agentName : String
  agentColor : Nat
  accountId : String
  accountName : String
  messages : List Message
  title : Option String
  createdAt : Nat
  updatedAt : Nat
deriving DecidableEq, Repr

/-- `generateConversationTitle` from `src/types.ts`. -/
def generateConversationTitle (messages : List Message) : String :=
  match messages.find? (fun m => decide (m.role = Role.user)) with
  | none => "New Conversation"
  | some firstUserMessage =>
    let content := jsTrim firstUserMessage.content
    if content.length ≤ 50 then content
    else String.mk (content.data.take 47) ++ "..."

/-! ## Conversation store (`src/hooks/useConversations.ts`)

The hook keeps the conversation list in React state and mirrors it to
LocalStorage via `save`.  `ConversationStore` carries both: `memory` is
the React state, `disk` the persisted copy. -/

structure ConversationStore where
  memory : List Conversation
  disk : List Conversation
deriving DecidableEq, Repr

/-- A message as passed to `addMessage` (`Omit<Message, "id">`). -/
structure MessageDraft where
  role : Role
  content : String
  timestamp : Nat
  reasoning : Option String
  toolCalls : Option (List ToolCall)
deriving DecidableEq, Repr

/-- The per-conversation body of `addMessage`'s `prev.map`. -/
def addMessageConv (conversationId : String) (draft : MessageDraft)
    (newId : String) (now : Nat) (conv : Conversation) : Conversation :=
  if conv.id = conversationId then
    let newMessage : Message :=
      { id := newId, role := draft.role, content := draft.content,
        timestamp := draft.timestamp, reasoning := draft.reasoning,
        toolCalls := draft.toolCalls }
    let updatedMessages := conv.messages ++ [newMessage]
    { conv with
      messages := updatedMessages,
      title := some (jsOrOpt conv.title (generateConversationTitle updatedMessages)),
      updatedAt := now }
  else conv

/-- `addMessage` from `useConversations.ts`.  The generated unique id and
the current time are explicit parameters; `save` always runs. -/
def addMessage (store : ConversationStore) (conversationId : String)
    (draft : MessageDraft) (newId : String) (now : Nat) : ConversationStore :=
  let updated := store.memory.map (addMessageConv conversationId draft newId now)
  { memory := updated, disk := updated }

/-- The per-conversation body of `updateLastMessage`'s `prev.map`. -/
def updateLastMessageConv (conversationId : String) (content : String)
    (reasoning : Option String) (now : Nat) (conv : Conversation) : Conversation :=
  if conv.id = conversationId then
    match conv.messages.getLast? with
    | none => conv
    | some lastMessage =>
      if lastMessage.role = Role.assistant then
        { conv with
          messages := conv.messages.dropLast ++
            [{ lastMessage with content := content, reasoning := reasoning }],
          updatedAt := now }
      else
        { conv with updatedAt := now }
  else conv

/-- `updateLastMessage` from `useConversations.ts`: in-memory update of
every matching conversation, persisted only when `shouldSave`. -/
def updateLastMessage (store : ConversationStore) (conversationId : String)
    (content : String) (reasoning : Option String) (shouldSave : Bool)
    (now : Nat) : ConversationStore :=
  let updated := store.memory.map (updateLastMessageConv conversationId content reasoning now)
  { memory := updated, disk := if shouldSave then updated else store.disk }

/-! ## Account registry (`src/hooks/useAccounts.ts`)

Raycast preferences deliver each optional field as `string | undefined`;
every use in `parseAccounts` goes through JS truthiness, which cannot
tell `undefined` from `""`, so each preference is modelled as a `String`
with `""` for the absent value. -/

structure MultiAccountPreferences where
  project1Name : String
  project1ApiKey : String
  project1BaseUrl : String
  project2Name : String
  project2ApiKey : String
  project2BaseUrl : String
  project3Name : String
  project3ApiKey : String
  project3BaseUrl : String
  project4Name : String
  project4ApiKey : String
  project4BaseUrl : String
  project5Name : String
  project5ApiKey : String
  project5BaseUrl : String
  showReasoning : Bool
deriving DecidableEq, Repr

/-- `LettaAccount` from `src/types.ts`. -/
structure LettaAccount where
  id : String
  name : String
  apiKey : String
  baseUrl : Option String
deriving DecidableEq, Repr

/-- `proj.baseUrl || undefined`. -/
def baseUrlOrNone (s : String) : Option String :=
  if s = "" then none else some s

/-- One entry of the `optionalProjects` array in `parseAccounts`. -/
def optionalProject (id name apiKey baseUrl : String) : List LettaAccount :=
  if name ≠ "" ∧ apiKey ≠ "" then
    [{ id := id, name := name, apiKey := apiKey, baseUrl := baseUrlOrNone baseUrl }]
  else []

/-- `parseAccounts` from `useAccounts.ts`: the sequence of `accounts.push`
calls is rendered as a concatenation of conditional singletons. -/
def parseAccounts (prefs : MultiAccountPreferences) : List LettaAccount :=
  (if prefs.project1ApiKey ≠ "" then
    [{ id := "project1", name := jsOrS prefs.project1Name "Default",
       apiKey := prefs.project1ApiKey, baseUrl := baseUrlOrNone prefs.project1BaseUrl }]
   else [])
  ++ optionalProject "project2" prefs.project2Name prefs.project2ApiKey prefs.project2BaseUrl
  ++ optionalProject "project3" prefs.project3Name prefs.project3ApiKey prefs.project3BaseUrl
  ++ optionalProject "project4" prefs.project4Name prefs.project4ApiKey prefs.project4BaseUrl
  ++ optionalProject "project5" prefs.project5Name prefs.project5ApiKey prefs.project5BaseUrl

/-! ## Agent directory (`src/hooks/useAgents.ts`) -/

/-- An agent record as returned by the backend list endpoint. -/
structure AgentRecord where
  id : String
  name : String
  description : Option String
deriving DecidableEq, Repr

/-- The response shapes `fetchAgentsForAccount` distinguishes: a plain
array, a wrapper object with a `data` array, an async-iterable sequence
(a lazy finite single-pass source, modelled by the list of records it
yields), and anything else (which contributes no agents). -/
inductive AgentListResponse where
  | plainArray (records : List AgentRecord)
  | dataWrapper (records : List AgentRecord)
  | asyncSeq (records : List AgentRecord)
  | unrecognized
deriving DecidableEq, Repr

/-- The shape-normalisation branch of `fetchAgentsForAccount`: all three
recognised shapes fill `agentsList` with their records. -/
def normalizeAgentList : AgentListResponse → List AgentRecord
  | .plainArray records => records
  | .dataWrapper records => records
  | .asyncSeq records => records
  | .unrecognized => []

/-- `AgentSummary` from `useAgents.ts`. -/
structure AgentSummary where
  id : String
  name : String
  description : Option String
  accountId : String
  accountName : String
deriving DecidableEq, Repr

/-- `fetchAgentsForAccount`: the network call either yields a response of
some shape or throws; the surrounding `try`/`catch` turns a throw into an
empty contribution.  On success the records are tagged with the account. -/
def fetchAgentsForAccount (account : LettaAccount)
    (result : Except String AgentListResponse) : List AgentSummary :=
  match result with
  | .error _ => []
  | .ok response =>
    (normalizeAgentList response).map fun a =>
      { id := a.id, name := a.name, description := a.description,
        accountId := account.id, accountName := account.name }

/-- The sort relation of `useAgents`' comparator: account display name
first, then agent name (`localeCompare` modelled as the code-point
order). -/
def agentLe (a b : AgentSummary) : Prop :=
  a.accountName < b.accountName ∨ (a.accountName = b.accountName ∧ a.name ≤ b.name)

instance : DecidableRel agentLe := fun a b => by
  unfold agentLe; infer_instance

/-- The behaviour of one account's backend as seen by `useAgents`:
`none` models a missing client (`if (!client) return []`), otherwise the
list call's outcome. -/
def accountContribution (backend : LettaAccount → Option (Except String AgentListResponse))
    (account : LettaAccount) : List AgentSummary :=
  match backend account with
  | none => []
  | some result => fetchAgentsForAccount account result

/-- The aggregation inside `useAgents`: fan out over every account,
flatten, and sort by account name then agent name. -/
def listAgents (accounts : List LettaAccount)
    (backend : LettaAccount → Option (Except String AgentListResponse)) :
    List AgentSummary :=
  List.insertionSort agentLe ((accounts.map (accountContribution backend)).flatten)

/-! ## Streaming response engine (`src/chat.tsx`) -/

/-- One element of an `AssistantMessage.content` array: a bare string, an
object with a `text` field, or anything else. -/
inductive ContentBlock where
  | str (s : String)
  | withText (text : String)
  | otherBlock
deriving DecidableEq, Repr

/-- The `content` field of an assistant event: plain string, block list,
or an unrecognised value. -/
inductive ContentValue where
  | str (s : String)
  | blocks (bs : List ContentBlock)
  | otherValue
deriving DecidableEq, Repr

/-- `extractAssistantContent` from `src/chat.tsx`. -/
def extractAssistantContent : ContentValue → String
  | .str s => s
  | .blocks bs =>
    String.join (bs.filterMap fun b =>
      match b with
      | .str s => some s
      | .withText text => some text
      | .otherBlock => none)
  | .otherValue => ""

/-- The nested `tool_call` payload of a `tool_call_message` event. -/
structure ToolCallPayload where
  name : String
  argumentsRaw : Option String
  toolCallId : Option String
deriving DecidableEq, Repr

/-- A streamed event, classified by its `message_type` discriminator.
`id` is the optional per-event message identifier. -/
inductive StreamEvent where
  | assistantMessage (id : Option String) (content : ContentValue)
  | reasoningMessage (id : Option String) (reasoning : Option String)
      (hiddenReasoning : Option String)
  | hiddenReasoningMessage (id : Option String) (reasoning : Option String)
      (hiddenReasoning : Option String)
  | toolCallMessage (toolCall : Option ToolCallPayload)
  | otherEvent
deriving DecidableEq, Repr

/-- JS `Map.get` on an insertion-ordered association list. -/
def lookupAssoc : List (String × String) → String → Option String
  | [], _ => none
  | (k, v) :: rest, key => if k = key then some v else lookupAssoc rest key

/-- JS `Map.set`: update in place when the key exists, append otherwise. -/
def setAssoc : List (String × String) → String → String → List (String × String)
  | [], key, value => [(key, value)]
  | (k, v) :: rest, key, value =>
    if k = key then (k, value) :: rest else (k, v) :: setAssoc rest key value

/-- The loop state of the streaming branch of `sendMessage`:
`contentByMessageId` and `reasoningParts` are local to the loop,
`finalAnswer`/`finalReasoning` are the outer mutable variables, and
`store` threads the conversation store through the live
`updateLastMessage` pushes (`streamingContent` mirrors the last pushed
live answer). -/
structure StreamState where
  contentByMessageId : List (String × String)
  reasoningParts : List String
  finalAnswer : String
  finalReasoning : String
  streamingContent : String
  store : ConversationStore
deriving DecidableEq, Repr

/-- The body of `for await (const chunk of stream)` in `sendMessage`
(`src/chat.tsx` lines 128–157).  The `switch` handles assistant content
(guarded by JS truthiness of both the extracted text and the message id)
and the two reasoning variants; every other event type falls through. -/
def processStreamEvent (conversationId : String) (now : Nat)
    (st : StreamState) (ev : StreamEvent) : StreamState :=
  match ev with
  | .assistantMessage messageId contentValue =>
    let content := extractAssistantContent contentValue
    match messageId with
    | some mid =>
      if content ≠ "" ∧ mid ≠ "" then
        let existing := (lookupAssoc st.contentByMessageId mid).getD ""
        let contentByMessageId :=
          if existing.length < content.length then
            setAssoc st.contentByMessageId mid content
          else st.contentByMessageId
        let finalAnswer := String.join (contentByMessageId.map Prod.snd)
        { st with
          contentByMessageId := contentByMessageId,
          finalAnswer := finalAnswer,
          streamingContent := finalAnswer,
          store := updateLastMessage st.store conversationId finalAnswer
            (some st.finalReasoning) false now }
      else st
    | none => st
  | .reasoningMessage _ reasoningField hiddenField =>
    let reasoning := jsOrOpt reasoningField (jsOrOpt hiddenField "")
    if reasoning ≠ "" then
      let reasoningParts := st.reasoningParts ++ [reasoning]
      { st with
        reasoningParts := reasoningParts,
        finalReasoning := String.intercalate "\n" reasoningParts }
    else st
  | .hiddenReasoningMessage _ reasoningField hiddenField =>
    let reasoning := jsOrOpt reasoningField (jsOrOpt hiddenField "")
    if reasoning ≠ "" then
      let reasoningParts := st.reasoningParts ++ [reasoning]
      { st with
        reasoningParts := reasoningParts,
        finalReasoning := String.intercalate "\n" reasoningParts }
    else st
  | .toolCallMessage _ => st
  | .otherEvent => st

/-- Consume a whole event stream in arrival order. -/
def runStreamEvents (conversationId : String) (now : Nat)
    (st : StreamState) (events : List StreamEvent) : StreamState :=
  events.foldl (processStreamEvent conversationId now) st

/-- The loop state at the top of the streaming branch: empty map and
parts lists, empty `finalAnswer`/`finalReasoning`, and the store as it
stands after the two optimistic appends. -/
def initStreamState (store : ConversationStore) : StreamState :=
  { contentByMessageId := [], reasoningParts := [], finalAnswer := "",
    finalReasoning := "", streamingContent := "", store := store }

/-- How the streaming attempt of `sendMessage` behaves: neither
`createStream` nor `stream` exists on the client; the stream request
itself throws; or a stream is obtained and yields `events`, after which
consumption either completes or throws (a mid-stream throw is the run
whose processed prefix is `events`). -/
inductive StreamAttempt where
  | noMethod
  | requestThrows
  | yields (events : List StreamEvent) (consumptionThrows : Bool)
deriving DecidableEq, Repr

/-- The non-streaming `messages.create` response: either directly an
array of message objects or a wrapper whose `messages` field may be
absent (`?? []`). -/
inductive CreateResponse where
  | arr (messages : List StreamEvent)
  | obj (messages : Option (List StreamEvent))
deriving DecidableEq, Repr

/-- `responseMessages` extraction in the fallback branch. -/
def responseMessagesOf : CreateResponse → List StreamEvent
  | .arr messages => messages
  | .obj messages => messages.getD []

/-- One iteration of the fallback loop (`src/chat.tsx` lines 174–181),
accumulating `finalAnswer` and `finalReasoning`; note it recognises only
`assistant_message` and `reasoning_message`. -/
def processFallbackMessage (acc : String × String) (msg : StreamEvent) : String × String :=
  match msg with
  | .assistantMessage _ contentValue =>
    (acc.1 ++ extractAssistantContent contentValue, acc.2)
  | .reasoningMessage _ reasoningField _ =>
    (acc.1, acc.2 ++ jsOrOpt reasoningField "")
  | _ => acc

/-- The observable outcome of one `sendMessage` call: the conversation
store it leaves behind, the error surfaced to the user (the failure
toast), and how many non-streaming `messages.create` requests were
issued. -/
structure SendOutcome where
  store : ConversationStore
  error : Option String
  createCalls : Nat
deriving DecidableEq, Repr

/-- `sendMessage` from `src/chat.tsx` (lines 85–199), starting after its
early-return guards (blank input, already streaming, no agent, no
client), with the conversation already resolved to `conversationId`.
`userMessageId`/`placeholderId` stand for the two `generateId` results
and `now` for the wall clock.  The user message and the empty assistant
placeholder are appended optimistically; the streaming attempt runs
under a `catch` that falls back to exactly one `messages.create` call;
the final `updateLastMessage` persists; the outer `catch` only surfaces
the error. -/
def sendMessage (store : ConversationStore) (conversationId : String)
    (text : String) (attempt : StreamAttempt)
    (fallback : Except String CreateResponse)
    (userMessageId placeholderId : String) (now : Nat) : SendOutcome :=
  let store1 := addMessage store conversationId
    { role := Role.user, content := jsTrim text, timestamp := now,
      reasoning := none, toolCalls := none } userMessageId now
  let store2 := addMessage store1 conversationId
    { role := Role.assistant, content := "", timestamp := now,
      reasoning := none, toolCalls := none } placeholderId now
  let init : StreamState := initStreamState store2
  let afterStream : StreamState × Bool :=
    match attempt with
    | .noMethod => (init, false)
    | .requestThrows => (init, false)
    | .yields events consumptionThrows =>
      (runStreamEvents conversationId now init events, !consumptionThrows)
  let st := afterStream.1
  if afterStream.2 then
    { store := updateLastMessage st.store conversationId st.finalAnswer
        (some st.finalReasoning) true now,
      error := none, createCalls := 0 }
  else
    match fallback with
    | .error e => { store := st.store, error := some e, createCalls := 1 }
    | .ok response =>
      let acc := (responseMessagesOf response).foldl processFallbackMessage
        (st.finalAnswer, st.finalReasoning)
      { store := updateLastMessage st.store conversationId acc.1
          (some acc.2) true now,
        error := none, createCalls := 1 }

/-! ## Spec-side characterisations

These definitions restate the specification's description of the engine
("track best-known text per identifier and concatenate all known
identifiers' text in discovery order") independently of the loop above,
so that the claim theorems compare the loop against them. -/

/-- The `(messageId, text)` pair an event contributes, when the `switch`
branch for assistant content actually fires (non-empty extracted text
and a truthy message id). -/
def effectiveContent (ev : StreamEvent) : Option (String × String) :=
  match ev with
  | .assistantMessage (some mid) contentValue =>
    let s := extractAssistantContent contentValue
    if s ≠ "" ∧ mid ≠ "" then some (mid, s) else none
  | _ => none

/-- Helper for `firstOccurrences`: drop elements already `seen`. -/
def firstOccurrencesAux (seen : List String) : List String → List String
  | [] => []
  | m :: rest =>
    if m ∈ seen then firstOccurrencesAux seen rest
    else m :: firstOccurrencesAux (m :: seen) rest

/-- The distinct elements of a list in discovery (first-occurrence)
order. -/
def firstOccurrences (l : List String) : List String :=
  firstOccurrencesAux [] l

/-- The best-known text among a sequence of revisions: the longest one,
the earliest in case of ties (a strictly longer revision replaces the
current one). -/
def bestKnownText (contents : List String) : String :=
  contents.foldl (fun best s => if best.length < s.length then s else best) ""

/-- All texts contributed for one message id, in arrival order. -/
def contentsForId (effs : List (String × String)) (mid : String) : List String :=
  (effs.filter (fun p => p.1 = mid)).map Prod.snd

/-- Best-known text per identifier, keyed in discovery order. -/
def bestTextMap (effs : List (String × String)) : List (String × String) :=
  (firstOccurrences (effs.map Prod.fst)).map
    (fun mid => (mid, bestKnownText (contentsForId effs mid)))

/-- The answer the specification predicts for a streamed event sequence:
the concatenation, in discovery order, of every identifier's best-known
text. -/
def specAnswer (events : List StreamEvent) : String :=
  String.join ((bestTextMap (events.filterMap effectiveContent)).map Prod.snd)

/-- The effect of one effective assistant event on the per-id content
map (the `existing.length < content.length` update of the loop). -/
def updateContentMap (m : List (String × String)) (p : String × String) :
    List (String × String) :=
  if ((lookupAssoc m p.1).getD "").length < p.2.length then
    setAssoc m p.1 p.2
  else m

/-- The answer text the fallback loop reconstructs from a response: the
concatenation of the extracted content of its `assistant_message`
entries. -/
def fallbackAnswer : List StreamEvent → String
  | [] => ""
  | m :: ms =>
    (match m with
     | .assistantMessage _ contentValue => extractAssistantContent contentValue
     | _ => "") ++ fallbackAnswer ms

/-- The reasoning text the fallback loop reconstructs from a response. -/
def fallbackReasoning : List StreamEvent → String
  | [] => ""
  | m :: ms =>
    (match m with
     | .reasoningMessage _ reasoningField _ => jsOrOpt reasoningField ""
     | _ => "") ++ fallbackReasoning ms

/-- Whether the streaming attempt of a send fails (so that the `catch`
falls through to the non-streaming path): no streaming method, a
throwing stream request, or a throw while consuming the stream. -/
def streamFailed : StreamAttempt → Bool
  | .noMethod => true
  | .requestThrows => true
  | .yields _ consumptionThrows => consumptionThrows

/-- The answer text a failed streaming attempt leaves in `finalAnswer`
before the fallback request runs. -/
def answerBeforeFallback (attempt : StreamAttempt) : String :=
  match attempt with
  | .noMethod => ""
  | .requestThrows => ""
  | .yields events _ => specAnswer events

example :
    (runStreamEvents "c" 0
      { contentByMessageId := [], reasoningParts := [], finalAnswer := "",
        finalReasoning := "", streamingContent := "",
        store := { memory := [], disk := [] } }
      [.assistantMessage (some "m1") (.str "Hi"),
       .assistantMessage (some "m1") (.str "Hi there")]).finalAnswer
      = "Hi there" := by decide

example :
    specAnswer
      [.assistantMessage (some "m1") (.str "Hi"),
       .assistantMessage (some "m1") (.str "Hi there")] = "Hi there" := by decide

/-! ## Helper lemmas -/

theorem length_pos_of_ne_empty {s : String} (h : s ≠ "") : 0 < s.length := by
  cases s with
  | mk data =>
    cases data with
    | nil => exact absurd rfl h
    | cons c cs => simp [String.length]

theorem lookupAssoc_map_graph (l : List String) (g : String → String) (key : String) :
    lookupAssoc (l.map fun m => (m, g m)) key =
      if key ∈ l then some (g key) else none := by
  induction l with
  | nil => simp [lookupAssoc]
  | cons x xs ih =>
    by_cases hx : x = key
    · subst hx
      simp [lookupAssoc]
    · have hkx : ¬key = x := fun h => hx h.symm
      simp only [List.map_cons, lookupAssoc, if_neg hx, ih, List.mem_cons]
      by_cases hk : key ∈ xs
      · simp [hk]
      · simp [hk, hkx]

theorem setAssoc_map_graph_mem (l : List String) (g : String → String)
    (key value : String) (hmem : key ∈ l) (hnd : l.Nodup) :
    setAssoc (l.map fun m => (m, g m)) key value =
      l.map fun m => (m, if m = key then value else g m) := by
  induction l with
  | nil => simp at hmem
  | cons x xs ih =>
    rcases List.nodup_cons.mp hnd with ⟨hx_not, hnd'⟩
    by_cases hx : x = key
    · subst hx
      simp only [List.map_cons, setAssoc, eq_self_iff_true, if_true]
      congr 1
      apply List.map_congr_left
      intro a ha
      have hax : ¬a = x := fun h => hx_not (h ▸ ha)
      simp [hax]
    · have hmem' : key ∈ xs := by
        rcases List.mem_cons.mp hmem with h | h
        · exact absurd h.symm hx
        · exact h
      simp only [List.map_cons, setAssoc, if_neg hx, ih hmem' hnd', if_neg hx]

theorem setAssoc_map_graph_not_mem (l : List String) (g : String → String)
    (key value : String) (hmem : key ∉ l) :
    setAssoc (l.map fun m => (m, g m)) key value =
      (l.map fun m => (m, g m)) ++ [(key, value)] := by
  induction l with
  | nil => simp [setAssoc]
  | cons x xs ih =>
    have hx : x ≠ key := fun h => hmem (h ▸ List.mem_cons_self x xs)
    have hmem' : key ∉ xs := fun h => hmem (List.mem_cons_of_mem _ h)
    simp only [List.map_cons, setAssoc, if_neg hx, ih hmem', List.cons_append]

theorem firstOccurrencesAux_cons (seen : List String) (m : String) (rest : List String) :
    firstOccurrencesAux seen (m :: rest) =
      if m ∈ seen then firstOccurrencesAux seen rest
      else m :: firstOccurrencesAux (m :: seen) rest := rfl

theorem mem_firstOccurrencesAux (seen l : List String) (x : String) :
    x ∈ firstOccurrencesAux seen l ↔ x ∈ l ∧ x ∉ seen := by
  induction l generalizing seen with
  | nil => simp [firstOccurrencesAux]
  | cons m rest ih =>
    rw [firstOccurrencesAux_cons]
    by_cases hm : m ∈ seen
    · rw [if_pos hm, ih]
      constructor
      · rintro ⟨h1, h2⟩
        exact ⟨List.mem_cons_of_mem _ h1, h2⟩
      · rintro ⟨h1, h2⟩
        rcases List.mem_cons.mp h1 with h | h
        · exact absurd (show x ∈ seen by rwa [h]) h2
        · exact ⟨h, h2⟩
    · rw [if_neg hm]
      rw [List.mem_cons, ih]
      constructor
      · rintro (h | ⟨h1, h2⟩)
        · refine ⟨by rw [h]; exact List.mem_cons_self m rest, by rwa [h]⟩
        · exact ⟨List.mem_cons_of_mem _ h1, fun hs => h2 (List.mem_cons_of_mem _ hs)⟩
      · rintro ⟨h1, h2⟩
        by_cases hxm : x = m
        · exact Or.inl hxm
        · rcases List.mem_cons.mp h1 with h | h
          · exact absurd h hxm
          · refine Or.inr ⟨h, fun hs => ?_⟩
            rcases List.mem_cons.mp hs with h' | h'
            · exact hxm h'
            · exact h2 h'

theorem nodup_firstOccurrencesAux (seen l : List String) :
    (firstOccurrencesAux seen l).Nodup := by
  induction l generalizing seen with
  | nil => simp [firstOccurrencesAux]
  | cons m rest ih =>
    rw [firstOccurrencesAux_cons]
    by_cases hm : m ∈ seen
    · rw [if_pos hm]
      exact ih seen
    · rw [if_neg hm, List.nodup_cons]
      refine ⟨fun hmem => ?_, ih (m :: seen)⟩
      exact ((mem_firstOccurrencesAux _ _ _).mp hmem).2 (List.mem_cons_self m seen)

theorem firstOccurrencesAux_append_single (seen l : List String) (m : String) :
    firstOccurrencesAux seen (l ++ [m]) =
      if m ∈ seen ∨ m ∈ l then firstOccurrencesAux seen l
      else firstOccurrencesAux seen l ++ [m] := by
  induction l generalizing seen with
  | nil =>
    by_cases hm : m ∈ seen <;> simp [firstOccurrencesAux, hm]
  | cons x xs ih =>
    rw [List.cons_append, firstOccurrencesAux_cons, firstOccurrencesAux_cons]
    by_cases hx : x ∈ seen
    · rw [if_pos hx, if_pos hx, ih]
      by_cases hcase : m ∈ seen ∨ m ∈ xs
      · rw [if_pos hcase, if_pos]
        rcases hcase with h | h
        · exact Or.inl h
        · exact Or.inr (List.mem_cons_of_mem _ h)
      · rw [if_neg hcase, if_neg]
        rintro (h | h)
        · exact hcase (Or.inl h)
        · rcases List.mem_cons.mp h with h' | h'
          · exact hcase (Or.inl (show m ∈ seen by rwa [h']))
          · exact hcase (Or.inr h')
    · rw [if_neg hx, if_neg hx, ih]
      by_cases hcase : m ∈ x :: seen ∨ m ∈ xs
      · rw [if_pos hcase, if_pos]
        rcases hcase with h | h
        · rcases List.mem_cons.mp h with h' | h'
          · exact Or.inr (by rw [h']; exact List.mem_cons_self x xs)
          · exact Or.inl h'
        · exact Or.inr (List.mem_cons_of_mem _ h)
      · rw [if_neg hcase, if_neg, List.cons_append]
        rintro (h | h)
        · exact hcase (Or.inl (List.mem_cons_of_mem _ h))
        · rcases List.mem_cons.mp h with h' | h'
          · exact hcase (Or.inl (by rw [h']; exact List.mem_cons_self x seen))
          · exact hcase (Or.inr h')

theorem mem_firstOccurrences (l : List String) (x : String) :
    x ∈ firstOccurrences l ↔ x ∈ l := by
  simp [firstOccurrences, mem_firstOccurrencesAux]

theorem nodup_firstOccurrences (l : List String) : (firstOccurrences l).Nodup :=
  nodup_firstOccurrencesAux [] l

theorem firstOccurrences_append_single (l : List String) (m : String) :
    firstOccurrences (l ++ [m]) =
      if m ∈ l then firstOccurrences l else firstOccurrences l ++ [m] := by
  simp [firstOccurrences, firstOccurrencesAux_append_single]

theorem bestKnownText_append_single (cs : List String) (s : String) :
    bestKnownText (cs ++ [s]) =
      if (bestKnownText cs).length < s.length then s else bestKnownText cs := by
  simp [bestKnownText, List.foldl_append]

theorem contentsForId_append_single (effs : List (String × String))
    (p : String × String) (mid : String) :
    contentsForId (effs ++ [p]) mid =
      contentsForId effs mid ++ (if p.1 = mid then [p.2] else []) := by
  by_cases h : p.1 = mid <;>
    simp [contentsForId, List.filter_append, h]

theorem contentsForId_eq_nil_of_not_mem (effs : List (String × String))
    (mid : String) (h : mid ∉ effs.map Prod.fst) :
    contentsForId effs mid = [] := by
  simp only [contentsForId, List.map_eq_nil_iff, List.filter_eq_nil_iff]
  intro p hp hdec
  exact h (List.mem_map.mpr ⟨p, hp, of_decide_eq_true hdec⟩)

theorem lookupAssoc_bestTextMap (effs : List (String × String)) (mid : String) :
    lookupAssoc (bestTextMap effs) mid =
      if mid ∈ effs.map Prod.fst then
        some (bestKnownText (contentsForId effs mid))
      else none := by
  rw [bestTextMap, lookupAssoc_map_graph]
  by_cases h : mid ∈ firstOccurrences (effs.map Prod.fst)
  · rw [if_pos h, if_pos ((mem_firstOccurrences _ _).mp h)]
  · rw [if_neg h, if_neg (fun hm => h ((mem_firstOccurrences _ _).mpr hm))]

theorem bestTextMap_append_single (effs : List (String × String)) (p : String × String)
    (hp : p.2 ≠ "") :
    bestTextMap (effs ++ [p]) = updateContentMap (bestTextMap effs) p := by
  obtain ⟨mid, s⟩ := p
  have hs : s ≠ "" := hp
  simp only [updateContentMap]
  rw [lookupAssoc_bestTextMap]
  have hids : (effs ++ [(mid, s)]).map Prod.fst = effs.map Prod.fst ++ [mid] := by
    simp
  by_cases hmem : mid ∈ effs.map Prod.fst
  · rw [if_pos hmem]
    simp only [Option.getD_some]
    have hfo : firstOccurrences ((effs ++ [(mid, s)]).map Prod.fst)
        = firstOccurrences (effs.map Prod.fst) := by
      rw [hids, firstOccurrences_append_single, if_pos hmem]
    have hmidfo : mid ∈ firstOccurrences (effs.map Prod.fst) :=
      (mem_firstOccurrences _ _).mpr hmem
    by_cases hlen : (bestKnownText (contentsForId effs mid)).length < s.length
    · rw [if_pos hlen]
      rw [bestTextMap, hfo, bestTextMap,
        setAssoc_map_graph_mem _ _ _ _ hmidfo (nodup_firstOccurrences _)]
      apply List.map_congr_left
      intro id hid
      by_cases hidm : id = mid
      · subst hidm
        rw [contentsForId_append_single, if_pos rfl, bestKnownText_append_single,
          if_pos hlen]
        simp
      · simp only [if_neg hidm]
        rw [contentsForId_append_single, if_neg (fun h => hidm h.symm), List.append_nil]
    · rw [if_neg hlen]
      rw [bestTextMap, hfo, bestTextMap]
      apply List.map_congr_left
      intro id hid
      by_cases hidm : id = mid
      · subst hidm
        rw [contentsForId_append_single, if_pos rfl, bestKnownText_append_single,
          if_neg hlen]
      · rw [contentsForId_append_single, if_neg (fun h => hidm h.symm), List.append_nil]
  · rw [if_neg hmem]
    simp only [Option.getD_none]
    have h0 : ("" : String).length < s.length := length_pos_of_ne_empty hs
    rw [if_pos h0]
    have hfo : firstOccurrences ((effs ++ [(mid, s)]).map Prod.fst)
        = firstOccurrences (effs.map Prod.fst) ++ [mid] := by
      rw [hids, firstOccurrences_append_single, if_neg hmem]
    have hmidfo : mid ∉ firstOccurrences (effs.map Prod.fst) :=
      fun h => hmem ((mem_firstOccurrences _ _).mp h)
    rw [bestTextMap, hfo, List.map_append, bestTextMap,
      setAssoc_map_graph_not_mem _ _ _ _ hmidfo]
    congr 1
    · apply List.map_congr_left
      intro id hid
      have hidm : ¬mid = id := by
        intro h
        exact hmem (by rw [h]; exact (mem_firstOccurrences _ _).mp hid)
      rw [contentsForId_append_single, if_neg hidm, List.append_nil]
    · simp only [List.map_cons, List.map_nil]
      rw [contentsForId_append_single, if_pos rfl,
        contentsForId_eq_nil_of_not_mem _ _ hmem]
      simp only [List.nil_append]
      have hbest : bestKnownText [s] = s := by
        simp only [bestKnownText, List.foldl_cons, List.foldl_nil]
        rw [if_pos h0]
      rw [hbest]

theorem foldl_updateContentMap_eq_bestTextMap (effs : List (String × String))
    (hne : ∀ p ∈ effs, p.2 ≠ "") :
    effs.foldl updateContentMap [] = bestTextMap effs := by
  induction effs using List.reverseRecOn with
  | nil => rfl
  | append_singleton l p ih =>
    rw [List.foldl_append]
    simp only [List.foldl_cons, List.foldl_nil]
    rw [ih (fun q hq => hne q (List.mem_append_left _ hq)),
      bestTextMap_append_single _ _ (hne p (List.mem_append_right _ (List.mem_cons_self p [])))]

theorem effectiveContent_snd_ne_empty (ev : StreamEvent) (p : String × String)
    (h : effectiveContent ev = some p) : p.2 ≠ "" := by
  cases ev with
  | assistantMessage mid c =>
    cases mid with
    | none => simp [effectiveContent] at h
    | some m =>
      by_cases hg : extractAssistantContent c ≠ "" ∧ m ≠ ""
      · simp only [effectiveContent, if_pos hg] at h
        obtain rfl := Option.some.inj h
        exact hg.1
      · simp only [effectiveContent, if_neg hg] at h
        exact Option.noConfusion h
  | reasoningMessage i r hr => simp [effectiveContent] at h
  | hiddenReasoningMessage i r hr => simp [effectiveContent] at h
  | toolCallMessage tc => simp [effectiveContent] at h
  | otherEvent => simp [effectiveContent] at h

theorem processStreamEvent_contentByMessageId_none (cid : String) (now : Nat)
    (st : StreamState) (ev : StreamEvent) (h : effectiveContent ev = none) :
    (processStreamEvent cid now st ev).contentByMessageId = st.contentByMessageId := by
  cases ev with
  | assistantMessage mid c =>
    cases mid with
    | none => rfl
    | some m =>
      by_cases hg : extractAssistantContent c ≠ "" ∧ m ≠ ""
      · simp only [effectiveContent, if_pos hg] at h
        exact Option.noConfusion h
      · simp only [processStreamEvent, if_neg hg]
  | reasoningMessage i r hr =>
    simp only [processStreamEvent]
    split <;> rfl
  | hiddenReasoningMessage i r hr =>
    simp only [processStreamEvent]
    split <;> rfl
  | toolCallMessage tc => rfl
  | otherEvent => rfl

theorem processStreamEvent_contentByMessageId_some (cid : String) (now : Nat)
    (st : StreamState) (ev : StreamEvent) (p : String × String)
    (h : effectiveContent ev = some p) :
    (processStreamEvent cid now st ev).contentByMessageId =
      updateContentMap st.contentByMessageId p := by
  cases ev with
  | assistantMessage mid c =>
    cases mid with
    | none => simp [effectiveContent] at h
    | some m =>
      by_cases hg : extractAssistantContent c ≠ "" ∧ m ≠ ""
      · simp only [effectiveContent, if_pos hg] at h
        obtain rfl := Option.some.inj h
        simp only [processStreamEvent, if_pos hg, updateContentMap]
      · simp only [effectiveContent, if_neg hg] at h
        exact Option.noConfusion h
  | reasoningMessage i r hr => simp [effectiveContent] at h
  | hiddenReasoningMessage i r hr => simp [effectiveContent] at h
  | toolCallMessage tc => simp [effectiveContent] at h
  | otherEvent => simp [effectiveContent] at h

theorem processStreamEvent_finalAnswer_none (cid : String) (now : Nat)
    (st : StreamState) (ev : StreamEvent) (h : effectiveContent ev = none) :
    (processStreamEvent cid now st ev).finalAnswer = st.finalAnswer := by
  cases ev with
  | assistantMessage mid c =>
    cases mid with
    | none => rfl
    | some m =>
      by_cases hg : extractAssistantContent c ≠ "" ∧ m ≠ ""
      · simp only [effectiveContent, if_pos hg] at h
        exact Option.noConfusion h
      · simp only [processStreamEvent, if_neg hg]
  | reasoningMessage i r hr =>
    simp only [processStreamEvent]
    split <;> rfl
  | hiddenReasoningMessage i r hr =>
    simp only [processStreamEvent]
    split <;> rfl
  | toolCallMessage tc => rfl
  | otherEvent => rfl

theorem processStreamEvent_finalAnswer_some (cid : String) (now : Nat)
    (st : StreamState) (ev : StreamEvent) (p : String × String)
    (h : effectiveContent ev = some p) :
    (processStreamEvent cid now st ev).finalAnswer =
      String.join ((updateContentMap st.contentByMessageId p).map Prod.snd) := by
  cases ev with
  | assistantMessage mid c =>
    cases mid with
    | none => simp [effectiveContent] at h
    | some m =>
      by_cases hg : extractAssistantContent c ≠ "" ∧ m ≠ ""
      · simp only [effectiveContent, if_pos hg] at h
        obtain rfl := Option.some.inj h
        simp only [processStreamEvent, if_pos hg, updateContentMap]
      · simp only [effectiveContent, if_neg hg] at h
        exact Option.noConfusion h
  | reasoningMessage i r hr => simp [effectiveContent] at h
  | hiddenReasoningMessage i r hr => simp [effectiveContent] at h
  | toolCallMessage tc => simp [effectiveContent] at h
  | otherEvent => simp [effectiveContent] at h

theorem runStreamEvents_contentByMessageId (cid : String) (now : Nat)
    (events : List StreamEvent) :
    ∀ st : StreamState,
    (runStreamEvents cid now st events).contentByMessageId =
      (events.filterMap effectiveContent).foldl updateContentMap st.contentByMessageId := by
  induction events with
  | nil => intro st; rfl
  | cons e es ih =>
    intro st
    show (runStreamEvents cid now (processStreamEvent cid now st e) es).contentByMessageId = _
    rw [ih, List.filterMap_cons]
    cases hef : effectiveContent e with
    | none => rw [processStreamEvent_contentByMessageId_none _ _ _ _ hef]
    | some p =>
      rw [processStreamEvent_contentByMessageId_some _ _ _ _ _ hef, List.foldl_cons]

theorem runStreamEvents_finalAnswer_join (cid : String) (now : Nat)
    (events : List StreamEvent) :
    ∀ st : StreamState,
    st.finalAnswer = String.join (st.contentByMessageId.map Prod.snd) →
    (runStreamEvents cid now st events).finalAnswer =
      String.join ((runStreamEvents cid now st events).contentByMessageId.map Prod.snd) := by
  induction events with
  | nil => intro st h; exact h
  | cons e es ih =>
    intro st h
    show (runStreamEvents cid now (processStreamEvent cid now st e) es).finalAnswer = _
    apply ih
    cases hef : effectiveContent e with
    | none =>
      rw [processStreamEvent_finalAnswer_none _ _ _ _ hef,
        processStreamEvent_contentByMessageId_none _ _ _ _ hef]
      exact h
    | some p =>
      rw [processStreamEvent_finalAnswer_some _ _ _ _ _ hef,
        processStreamEvent_contentByMessageId_some _ _ _ _ _ hef]

/-- The streaming loop's `finalAnswer` is exactly the specification's
per-identifier best-known-text concatenation. -/
theorem runStreamEvents_finalAnswer_eq_specAnswer (cid : String) (now : Nat)
    (store : ConversationStore) (events : List StreamEvent) :
    (runStreamEvents cid now (initStreamState store) events).finalAnswer =
      specAnswer events := by
  rw [runStreamEvents_finalAnswer_join cid now events (initStreamState store) rfl,
    runStreamEvents_contentByMessageId,
    show (initStreamState store).contentByMessageId = [] from rfl,
    foldl_updateContentMap_eq_bestTextMap]
  · rfl
  · intro p hp
    rcases List.mem_filterMap.mp hp with ⟨ev, _, hev⟩
    exact effectiveContent_snd_ne_empty ev p hev

/-! ## Per-conversation effect of the send path -/

theorem updateLastMessageConv_eq_of_getLast (cid c : String) (r : Option String)
    (now : Nat) (conv : Conversation) (last : Message)
    (hid : conv.id = cid) (hlast : conv.messages.getLast? = some last) :
    updateLastMessageConv cid c r now conv =
      if last.role = Role.assistant then
        { conv with
          messages := conv.messages.dropLast ++
            [{ last with content := c, reasoning := r }],
          updatedAt := now }
      else { conv with updatedAt := now } := by
  rw [updateLastMessageConv, if_pos hid, hlast]

theorem updateLastMessageConv_eq_of_none (cid c : String) (r : Option String)
    (now : Nat) (conv : Conversation)
    (hlast : conv.messages.getLast? = none) :
    updateLastMessageConv cid c r now conv = conv := by
  rw [updateLastMessageConv]
  split
  · rw [hlast]
  · rfl

theorem updateLastMessageConv_other (cid c : String) (r : Option String)
    (now : Nat) (conv : Conversation) (hid : ¬conv.id = cid) :
    updateLastMessageConv cid c r now conv = conv := by
  rw [updateLastMessageConv, if_neg hid]

theorem updateLastMessageConv_id (cid c : String) (r : Option String)
    (now : Nat) (conv : Conversation) :
    (updateLastMessageConv cid c r now conv).id = conv.id := by
  by_cases hid : conv.id = cid
  · cases hlast : conv.messages.getLast? with
    | none => rw [updateLastMessageConv_eq_of_none _ _ _ _ _ hlast]
    | some last =>
      rw [updateLastMessageConv_eq_of_getLast _ _ _ _ _ _ hid hlast]
      split <;> rfl
  · rw [updateLastMessageConv_other _ _ _ _ _ hid]

theorem updateLastMessageConv_length (cid c : String) (r : Option String)
    (now : Nat) (conv : Conversation) :
    (updateLastMessageConv cid c r now conv).messages.length
      = conv.messages.length := by
  by_cases hid : conv.id = cid
  · cases hlast : conv.messages.getLast? with
    | none => rw [updateLastMessageConv_eq_of_none _ _ _ _ _ hlast]
    | some last =>
      rw [updateLastMessageConv_eq_of_getLast _ _ _ _ _ _ hid hlast]
      split
      · simp only [List.length_append, List.length_dropLast, List.length_cons,
          List.length_nil]
        have hne : conv.messages ≠ [] := by
          intro hnil
          rw [hnil] at hlast
          exact Option.noConfusion hlast
        have hpos : 0 < conv.messages.length := List.length_pos.mpr hne
        omega
      · rfl
  · rw [updateLastMessageConv_other _ _ _ _ _ hid]

theorem updateLastMessageConv_assistantLast (cid c : String) (r : Option String)
    (now : Nat) (conv : Conversation) (base : List Message) (m : Message)
    (hid : conv.id = cid) (hmsgs : conv.messages = base ++ [m])
    (hrole : m.role = Role.assistant) :
    (updateLastMessageConv cid c r now conv).messages
      = base ++ [{ m with content := c, reasoning := r }] := by
  rw [updateLastMessageConv_eq_of_getLast cid c r now conv m hid
    (by rw [hmsgs]; exact List.getLast?_concat _), if_pos hrole]
  simp only
  rw [hmsgs, List.dropLast_concat]

theorem updateLastMessageConv_clean (cid c : String) (r : Option String)
    (now : Nat) (conv : Conversation)
    (hclean : ∀ m ∈ conv.messages, m.toolCalls = none) :
    ∀ m ∈ (updateLastMessageConv cid c r now conv).messages, m.toolCalls = none := by
  by_cases hid : conv.id = cid
  · cases hlast : conv.messages.getLast? with
    | none =>
      rw [updateLastMessageConv_eq_of_none _ _ _ _ _ hlast]
      exact hclean
    | some last =>
      rw [updateLastMessageConv_eq_of_getLast _ _ _ _ _ _ hid hlast]
      have hlastmem : last ∈ conv.messages := by
        have hne : conv.messages ≠ [] := by
          intro hnil
          rw [hnil] at hlast
          exact Option.noConfusion hlast
        rw [List.getLast?_eq_getLast_of_ne_nil hne] at hlast
        obtain rfl := (Option.some.inj hlast).symm
        exact List.getLast_mem hne
      split
      · intro m hm
        simp only at hm
        rcases List.mem_append.mp hm with h | h
        · exact hclean m (List.mem_of_mem_dropLast h)
        · rcases List.mem_singleton.mp h with rfl
          exact hclean last hlastmem
      · exact hclean
  · rw [updateLastMessageConv_other _ _ _ _ _ hid]
    exact hclean

theorem addMessageConv_id (cid : String) (draft : MessageDraft) (newId : String)
    (now : Nat) (conv : Conversation) :
    (addMessageConv cid draft newId now conv).id = conv.id := by
  simp only [addMessageConv]
  split <;> rfl

theorem addMessageConv_messages_match (cid : String) (draft : MessageDraft)
    (newId : String) (now : Nat) (conv : Conversation) (hid : conv.id = cid) :
    (addMessageConv cid draft newId now conv).messages =
      conv.messages ++ [{ id := newId, role := draft.role,
                          content := draft.content, timestamp := draft.timestamp,
                          reasoning := draft.reasoning,
                          toolCalls := draft.toolCalls }] := by
  simp only [addMessageConv, if_pos hid]

theorem addMessageConv_other (cid : String) (draft : MessageDraft)
    (newId : String) (now : Nat) (conv : Conversation) (hid : ¬conv.id = cid) :
    addMessageConv cid draft newId now conv = conv := by
  simp only [addMessageConv, if_neg hid]

theorem addMessageConv_clean (cid : String) (draft : MessageDraft) (newId : String)
    (now : Nat) (conv : Conversation) (hdraft : draft.toolCalls = none)
    (hclean : ∀ m ∈ conv.messages, m.toolCalls = none) :
    ∀ m ∈ (addMessageConv cid draft newId now conv).messages, m.toolCalls = none := by
  by_cases hid : conv.id = cid
  · rw [addMessageConv_messages_match _ _ _ _ _ hid]
    intro m hm
    rcases List.mem_append.mp hm with h | h
    · exact hclean m h
    · rcases List.mem_singleton.mp h with rfl
      exact hdraft
  · rw [addMessageConv_other _ _ _ _ _ hid]
    exact hclean

/-- The per-conversation store transformation that the streaming loop's
live (non-persisting) `updateLastMessage` pushes compose to. -/
def streamMemFun (cid : String) (now : Nat) (st : StreamState) :
    List StreamEvent → Conversation → Conversation
  | [], conv => conv
  | e :: es, conv =>
    streamMemFun cid now (processStreamEvent cid now st e) es
      (match effectiveContent e with
       | some _ =>
         updateLastMessageConv cid (processStreamEvent cid now st e).finalAnswer
           (some st.finalReasoning) now conv
       | none => conv)

theorem streamMemFun_cons_none (cid : String) (now : Nat) (st : StreamState)
    (e : StreamEvent) (es : List StreamEvent) (conv : Conversation)
    (hef : effectiveContent e = none) :
    streamMemFun cid now st (e :: es) conv =
      streamMemFun cid now (processStreamEvent cid now st e) es conv := by
  simp only [streamMemFun, hef]

theorem streamMemFun_cons_some (cid : String) (now : Nat) (st : StreamState)
    (e : StreamEvent) (es : List StreamEvent) (conv : Conversation)
    (p : String × String) (hef : effectiveContent e = some p) :
    streamMemFun cid now st (e :: es) conv =
      streamMemFun cid now (processStreamEvent cid now st e) es
        (updateLastMessageConv cid (processStreamEvent cid now st e).finalAnswer
          (some st.finalReasoning) now conv) := by
  simp only [streamMemFun, hef]

theorem processStreamEvent_store_none (cid : String) (now : Nat)
    (st : StreamState) (ev : StreamEvent) (h : effectiveContent ev = none) :
    (processStreamEvent cid now st ev).store = st.store := by
  cases ev with
  | assistantMessage mid c =>
    cases mid with
    | none => rfl
    | some m =>
      by_cases hg : extractAssistantContent c ≠ "" ∧ m ≠ ""
      · simp only [effectiveContent, if_pos hg] at h
        exact Option.noConfusion h
      · simp only [processStreamEvent, if_neg hg]
  | reasoningMessage i r hr =>
    simp only [processStreamEvent]
    split <;> rfl
  | hiddenReasoningMessage i r hr =>
    simp only [processStreamEvent]
    split <;> rfl
  | toolCallMessage tc => rfl
  | otherEvent => rfl

theorem processStreamEvent_store_some (cid : String) (now : Nat)
    (st : StreamState) (ev : StreamEvent) (p : String × String)
    (h : effectiveContent ev = some p) :
    (processStreamEvent cid now st ev).store =
      updateLastMessage st.store cid (processStreamEvent cid now st ev).finalAnswer
        (some st.finalReasoning) false now := by
  cases ev with
  | assistantMessage mid c =>
    cases mid with
    | none => simp [effectiveContent] at h
    | some m =>
      by_cases hg : extractAssistantContent c ≠ "" ∧ m ≠ ""
      · simp only [processStreamEvent, if_pos hg]
      · simp only [effectiveContent, if_neg hg] at h
        exact Option.noConfusion h
  | reasoningMessage i r hr => simp [effectiveContent] at h
  | hiddenReasoningMessage i r hr => simp [effectiveContent] at h
  | toolCallMessage tc => simp [effectiveContent] at h
  | otherEvent => simp [effectiveContent] at h

theorem runStreamEvents_store_memory (cid : String) (now : Nat)
    (events : List StreamEvent) :
    ∀ st : StreamState,
    (runStreamEvents cid now st events).store.memory =
      st.store.memory.map (fun conv => streamMemFun cid now st events conv) := by
  induction events with
  | nil =>
    intro st
    simp [streamMemFun, runStreamEvents]
  | cons e es ih =>
    intro st
    show (runStreamEvents cid now (processStreamEvent cid now st e) es).store.memory = _
    rw [ih]
    cases hef : effectiveContent e with
    | none =>
      rw [processStreamEvent_store_none _ _ _ _ hef]
      apply List.map_congr_left
      intro conv _
      simp only [streamMemFun, hef]
    | some p =>
      rw [processStreamEvent_store_some _ _ _ _ _ hef]
      rw [show (updateLastMessage st.store cid
            (processStreamEvent cid now st e).finalAnswer
            (some st.finalReasoning) false now).memory
          = st.store.memory.map (updateLastMessageConv cid
              (processStreamEvent cid now st e).finalAnswer
              (some st.finalReasoning) now) from rfl]
      rw [List.map_map]
      apply List.map_congr_left
      intro conv _
      simp only [Function.comp, streamMemFun, hef]

theorem streamMemFun_id (cid : String) (now : Nat) (events : List StreamEvent) :
    ∀ (st : StreamState) (conv : Conversation),
    (streamMemFun cid now st events conv).id = conv.id := by
  induction events with
  | nil => intro st conv; rfl
  | cons e es ih =>
    intro st conv
    cases hef : effectiveContent e with
    | none =>
      rw [streamMemFun_cons_none _ _ _ _ _ _ hef]
      exact ih _ _
    | some p =>
      rw [streamMemFun_cons_some _ _ _ _ _ _ _ hef, ih, updateLastMessageConv_id]

theorem streamMemFun_length (cid : String) (now : Nat) (events : List StreamEvent) :
    ∀ (st : StreamState) (conv : Conversation),
    (streamMemFun cid now st events conv).messages.length
      = conv.messages.length := by
  induction events with
  | nil => intro st conv; rfl
  | cons e es ih =>
    intro st conv
    cases hef : effectiveContent e with
    | none =>
      rw [streamMemFun_cons_none _ _ _ _ _ _ hef]
      exact ih _ _
    | some p =>
      rw [streamMemFun_cons_some _ _ _ _ _ _ _ hef, ih, updateLastMessageConv_length]

theorem streamMemFun_assistantLast (cid : String) (now : Nat)
    (events : List StreamEvent) :
    ∀ (st : StreamState) (conv : Conversation) (base : List Message) (m : Message),
    conv.messages = base ++ [m] → m.role = Role.assistant → m.toolCalls = none →
    ∃ m' : Message, (streamMemFun cid now st events conv).messages = base ++ [m']
      ∧ m'.role = Role.assistant ∧ m'.toolCalls = none := by
  induction events with
  | nil =>
    intro st conv base m hm hrole htc
    exact ⟨m, hm, hrole, htc⟩
  | cons e es ih =>
    intro st conv base m hm hrole htc
    cases hef : effectiveContent e with
    | none =>
      rw [streamMemFun_cons_none _ _ _ _ _ _ hef]
      exact ih _ _ _ _ hm hrole htc
    | some p =>
      rw [streamMemFun_cons_some _ _ _ _ _ _ _ hef]
      by_cases hid : conv.id = cid
      · exact ih _ _ _ _
          (updateLastMessageConv_assistantLast _ _ _ _ _ base m hid hm hrole)
          hrole htc
      · rw [updateLastMessageConv_other _ _ _ _ _ hid]
        exact ih _ _ _ _ hm hrole htc

theorem streamMemFun_clean (cid : String) (now : Nat) (events : List StreamEvent) :
    ∀ (st : StreamState) (conv : Conversation),
    (∀ m ∈ conv.messages, m.toolCalls = none) →
    ∀ m ∈ (streamMemFun cid now st events conv).messages, m.toolCalls = none := by
  induction events with
  | nil => intro st conv h; exact h
  | cons e es ih =>
    intro st conv h
    cases hef : effectiveContent e with
    | none =>
      rw [streamMemFun_cons_none _ _ _ _ _ _ hef]
      exact ih _ _ h
    | some p =>
      rw [streamMemFun_cons_some _ _ _ _ _ _ _ hef]
      exact ih _ _ (updateLastMessageConv_clean _ _ _ _ _ h)

theorem foldl_processFallbackMessage (msgs : List StreamEvent) :
    ∀ fa fr : String,
    msgs.foldl processFallbackMessage (fa, fr)
      = (fa ++ fallbackAnswer msgs, fr ++ fallbackReasoning msgs) := by
  induction msgs with
  | nil =>
    intro fa fr
    simp [fallbackAnswer, fallbackReasoning, String.append_empty]
  | cons m ms ih =>
    intro fa fr
    rw [List.foldl_cons]
    cases m with
    | assistantMessage i c =>
      rw [show processFallbackMessage (fa, fr) (.assistantMessage i c)
          = (fa ++ extractAssistantContent c, fr) from rfl, ih]
      simp only [fallbackAnswer, fallbackReasoning, String.append_assoc,
        String.empty_append]
    | reasoningMessage i r hr =>
      rw [show processFallbackMessage (fa, fr) (.reasoningMessage i r hr)
          = (fa, fr ++ jsOrOpt r "") from rfl, ih]
      simp only [fallbackAnswer, fallbackReasoning, String.append_assoc,
        String.empty_append]
    | hiddenReasoningMessage i r hr =>
      rw [show processFallbackMessage (fa, fr) (.hiddenReasoningMessage i r hr)
          = (fa, fr) from rfl, ih]
      simp only [fallbackAnswer, fallbackReasoning, String.empty_append]
    | toolCallMessage tc =>
      rw [show processFallbackMessage (fa, fr) (.toolCallMessage tc)
          = (fa, fr) from rfl, ih]
      simp only [fallbackAnswer, fallbackReasoning, String.empty_append]
    | otherEvent =>
      rw [show processFallbackMessage (fa, fr) .otherEvent = (fa, fr) from rfl, ih]
      simp only [fallbackAnswer, fallbackReasoning, String.empty_append]

theorem updateLastMessage_persist_last (store : ConversationStore)
    (cid answer : String) (reasoning : Option String) (now : Nat)
    (conv2 : Conversation) (hmem : conv2 ∈ store.memory) (hid : conv2.id = cid)
    (base : List Message) (m : Message) (hmsgs : conv2.messages = base ++ [m])
    (hrole : m.role = Role.assistant) :
    ∃ conv' ∈ (updateLastMessage store cid answer reasoning true now).memory,
      conv'.id = cid
      ∧ conv'.messages.getLast?.map Message.content = some answer
      ∧ conv'.messages.getLast?.map Message.role = some Role.assistant := by
  refine ⟨updateLastMessageConv cid answer reasoning now conv2,
    List.mem_map_of_mem _ hmem, ?_, ?_, ?_⟩
  · rw [updateLastMessageConv_id]
    exact hid
  · rw [updateLastMessageConv_assistantLast cid answer reasoning now conv2 base m
      hid hmsgs hrole, List.getLast?_concat]
    rfl
  · rw [updateLastMessageConv_assistantLast cid answer reasoning now conv2 base m
      hid hmsgs hrole, List.getLast?_concat]
    simp [hrole]

/-- The store after `sendMessage`'s two optimistic appends (the user
message and the empty assistant placeholder). -/
def storeAfterAppends (store : ConversationStore) (cid text uid phId : String)
    (now : Nat) : ConversationStore :=
  addMessage (addMessage store cid
    { role := Role.user, content := jsTrim text, timestamp := now,
      reasoning := none, toolCalls := none } uid now) cid
    { role := Role.assistant, content := "", timestamp := now,
      reasoning := none, toolCalls := none } phId now

/-- The stream state `sendMessage` holds when the streaming section is
left (normally or by an exception). -/
def streamStateAfter (cid : String) (now : Nat) (store2 : ConversationStore) :
    StreamAttempt → StreamState
  | .noMethod => initStreamState store2
  | .requestThrows => initStreamState store2
  | .yields events _ => runStreamEvents cid now (initStreamState store2) events

theorem streamStateAfter_finalAnswer (cid : String) (now : Nat)
    (store2 : ConversationStore) (attempt : StreamAttempt) :
    (streamStateAfter cid now store2 attempt).finalAnswer
      = answerBeforeFallback attempt := by
  cases attempt with
  | noMethod => rfl
  | requestThrows => rfl
  | yields events ct => exact runStreamEvents_finalAnswer_eq_specAnswer cid now store2 events

/-- The store reached after the streaming section is the post-append
store mapped through a per-conversation function that preserves each
conversation's id, message count, assistant-last shape and the absence
of recorded tool calls. -/
theorem streamStateAfter_store_memory (cid : String) (now : Nat)
    (store2 : ConversationStore) (attempt : StreamAttempt) :
    ∃ F : Conversation → Conversation,
      (streamStateAfter cid now store2 attempt).store.memory = store2.memory.map F
      ∧ (∀ conv, (F conv).id = conv.id)
      ∧ (∀ conv, (F conv).messages.length = conv.messages.length)
      ∧ (∀ conv base m, conv.messages = base ++ [m] → m.role = Role.assistant →
          m.toolCalls = none →
          ∃ m', (F conv).messages = base ++ [m']
            ∧ m'.role = Role.assistant ∧ m'.toolCalls = none)
      ∧ (∀ conv, (∀ x ∈ conv.messages, x.toolCalls = none) →
          ∀ x ∈ (F conv).messages, x.toolCalls = none) := by
  cases attempt with
  | noMethod =>
    exact ⟨fun conv => conv, (List.map_id' store2.memory).symm, fun _ => rfl,
      fun _ => rfl, fun conv base m hm hr ht => ⟨m, hm, hr, ht⟩, fun _ h => h⟩
  | requestThrows =>
    exact ⟨fun conv => conv, (List.map_id' store2.memory).symm, fun _ => rfl,
      fun _ => rfl, fun conv base m hm hr ht => ⟨m, hm, hr, ht⟩, fun _ h => h⟩
  | yields events ct =>
    exact ⟨fun conv => streamMemFun cid now (initStreamState store2) events conv,
      runStreamEvents_store_memory cid now events (initStreamState store2),
      fun conv => streamMemFun_id cid now events _ conv,
      fun conv => streamMemFun_length cid now events _ conv,
      fun conv base m hm hr ht =>
        streamMemFun_assistantLast cid now events _ conv base m hm hr ht,
      fun conv h => streamMemFun_clean cid now events _ conv h⟩

theorem sendMessage_ok_of_failed (store : ConversationStore) (cid text : String)
    (attempt : StreamAttempt) (response : CreateResponse) (uid phId : String)
    (now : Nat) (hfail : streamFailed attempt = true) :
    sendMessage store cid text attempt (.ok response) uid phId now =
      { store := updateLastMessage
          (streamStateAfter cid now (storeAfterAppends store cid text uid phId now)
            attempt).store
          cid
          ((streamStateAfter cid now (storeAfterAppends store cid text uid phId now)
              attempt).finalAnswer
            ++ fallbackAnswer (responseMessagesOf response))
          (some ((streamStateAfter cid now
                (storeAfterAppends store cid text uid phId now) attempt).finalReasoning
            ++ fallbackReasoning (responseMessagesOf response)))
          true now,
        error := none, createCalls := 1 } := by
  cases attempt with
  | noMethod =>
    simp only [sendMessage, streamStateAfter, storeAfterAppends, initStreamState,
      foldl_processFallbackMessage]
    simp
  | requestThrows =>
    simp only [sendMessage, streamStateAfter, storeAfterAppends, initStreamState,
      foldl_processFallbackMessage]
    simp
  | yields events ct =>
    cases ct with
    | false => simp [streamFailed] at hfail
    | true =>
      simp only [sendMessage, streamStateAfter, storeAfterAppends, initStreamState,
        foldl_processFallbackMessage, Bool.not_true]
      simp

theorem sendMessage_error_of_failed (store : ConversationStore) (cid text : String)
    (attempt : StreamAttempt) (e : String) (uid phId : String)
    (now : Nat) (hfail : streamFailed attempt = true) :
    sendMessage store cid text attempt (.error e) uid phId now =
      { store := (streamStateAfter cid now
          (storeAfterAppends store cid text uid phId now) attempt).store,
        error := some e, createCalls := 1 } := by
  cases attempt with
  | noMethod => rfl
  | requestThrows => rfl
  | yields events ct =>
    cases ct with
    | false => simp [streamFailed] at hfail
    | true =>
      simp only [sendMessage, streamStateAfter, storeAfterAppends, initStreamState,
        Bool.not_true]
      simp

/-- Every path of `sendMessage` leaves the store either as the state the
streaming section reached, or as that state with one final persisting
`updateLastMessage` applied. -/
theorem sendMessage_store_cases (store : ConversationStore) (cid text : String)
    (attempt : StreamAttempt) (fallback : Except String CreateResponse)
    (uid phId : String) (now : Nat) :
    (sendMessage store cid text attempt fallback uid phId now).store
      = (streamStateAfter cid now (storeAfterAppends store cid text uid phId now)
          attempt).store
    ∨ ∃ A R, (sendMessage store cid text attempt fallback uid phId now).store
      = updateLastMessage
          (streamStateAfter cid now (storeAfterAppends store cid text uid phId now)
            attempt).store cid A R true now := by
  cases attempt with
  | noMethod =>
    cases fallback with
    | error e => exact Or.inl rfl
    | ok response => exact Or.inr ⟨_, _, rfl⟩
  | requestThrows =>
    cases fallback with
    | error e => exact Or.inl rfl
    | ok response => exact Or.inr ⟨_, _, rfl⟩
  | yields events ct =>
    cases ct with
    | true =>
      cases fallback with
      | error e =>
        exact Or.inl (congrArg SendOutcome.store
          (sendMessage_error_of_failed store cid text (.yields events true) e uid phId now rfl))
      | ok response =>
        exact Or.inr ⟨_, _, congrArg SendOutcome.store
          (sendMessage_ok_of_failed store cid text (.yields events true) response uid phId now rfl)⟩
    | false =>
      exact Or.inr ⟨_, _, rfl⟩

theorem addMessageConv_length (cid : String) (draft : MessageDraft)
    (newId : String) (now : Nat) (conv : Conversation) :
    (addMessageConv cid draft newId now conv).messages.length =
      if conv.id = cid then conv.messages.length + 1 else conv.messages.length := by
  by_cases hid : conv.id = cid
  · rw [if_pos hid, addMessageConv_messages_match _ _ _ _ _ hid]
    simp
  · rw [if_neg hid, addMessageConv_other _ _ _ _ _ hid]

theorem storeAfterAppends_mem (store : ConversationStore)
    (cid text uid phId : String) (now : Nat) (conv : Conversation)
    (hconv : conv ∈ store.memory) (hid : conv.id = cid) :
    ∃ conv2 ∈ (storeAfterAppends store cid text uid phId now).memory,
      conv2.id = cid
      ∧ ∃ base m, conv2.messages = base ++ [m]
          ∧ m.role = Role.assistant ∧ m.toolCalls = none := by
  refine ⟨addMessageConv cid
      { role := Role.assistant, content := "", timestamp := now,
        reasoning := none, toolCalls := none } phId now
      (addMessageConv cid
        { role := Role.user, content := jsTrim text, timestamp := now,
          reasoning := none, toolCalls := none } uid now conv),
    List.mem_map_of_mem _ (List.mem_map_of_mem _ hconv), ?_, ?_⟩
  · rw [addMessageConv_id, addMessageConv_id]
    exact hid
  · have hid1 : (addMessageConv cid
        { role := Role.user, content := jsTrim text, timestamp := now,
          reasoning := none, toolCalls := none } uid now conv).id = cid := by
      rw [addMessageConv_id]
      exact hid
    exact ⟨_, _, addMessageConv_messages_match _ _ _ _ _ hid1, rfl, rfl⟩

/-! ## Claim C2 -/

/-- Conversation and store used by the send-path witness theorems and
counterexamples: a single empty conversation `c1`. -/
def convEmpty : Conversation :=
  { id := "c1", agentId := "a1", agentName := "Agent", agentColor := 0,
    accountId := "project1", accountName := "Default", messages := [],
    title := none, createdAt := 0, updatedAt := 0 }

def storeEmpty : ConversationStore := { memory := [convEmpty], disk := [convEmpty] }

/-- C2 counterexample: the claim says a failed send retracts the
optimistic user message and placeholder so the message count is
unchanged; in the code the `catch` block only shows a failure toast, so
after a send whose streaming request and fallback request both throw,
the conversation holds two more messages than before (2 instead of 0). -/
theorem sendMessage_error_leaves_optimistic_messages :
    (sendMessage storeEmpty "c1" "hi" .requestThrows (.error "boom") "u1" "p1" 5).error
      = some "boom"
    ∧ ((sendMessage storeEmpty "c1" "hi" .requestThrows (.error "boom") "u1" "p1" 5).store.memory.map
        (fun c => c.messages.length)) = [2]
    ∧ (storeEmpty.memory.map fun c => c.messages.length) = [0]
    ∧ (2 : Nat) ≠ 0 := by
  refine ⟨by decide, by decide, by decide, by decide⟩

/-- C2 amended: an uncaught send error is surfaced to the caller, but
nothing is retracted — the targeted conversation keeps the optimistic
user message and its placeholder, so its message count after the failed
call equals its count before the call plus two (all other conversations
keep their counts). -/
theorem sendMessage_error_surfaced_no_retraction
    (store : ConversationStore) (cid text : String) (attempt : StreamAttempt)
    (e : String) (uid phId : String) (now : Nat)
    (hfail : streamFailed attempt = true) :
    (sendMessage store cid text attempt (.error e) uid phId now).error = some e
    ∧ (sendMessage store cid text attempt (.error e) uid phId now).store.memory.map
        (fun c => c.messages.length)
      = store.memory.map (fun c =>
          if c.id = cid then c.messages.length + 2 else c.messages.length) := by
  have hsend := sendMessage_error_of_failed store cid text attempt e uid phId now hfail
  have hstore : (sendMessage store cid text attempt (.error e) uid phId now).store
      = (streamStateAfter cid now (storeAfterAppends store cid text uid phId now)
          attempt).store :=
    congrArg SendOutcome.store hsend
  have herr : (sendMessage store cid text attempt (.error e) uid phId now).error
      = some e := congrArg SendOutcome.error hsend
  refine ⟨herr, ?_⟩
  obtain ⟨F, hFmem, hFid, hFlen, hFlast, hFclean⟩ :=
    streamStateAfter_store_memory cid now
      (storeAfterAppends store cid text uid phId now) attempt
  have happ : (storeAfterAppends store cid text uid phId now).memory
      = (store.memory.map (addMessageConv cid
          { role := Role.user, content := jsTrim text, timestamp := now,
            reasoning := none, toolCalls := none } uid now)).map
        (addMessageConv cid
          { role := Role.assistant, content := "", timestamp := now,
            reasoning := none, toolCalls := none } phId now) := rfl
  rw [hstore, hFmem, happ, List.map_map, List.map_map, List.map_map]
  apply List.map_congr_left
  intro c _
  simp only [Function.comp]
  rw [hFlen, addMessageConv_length, addMessageConv_id, addMessageConv_length]
  by_cases hcid : c.id = cid <;> simp [hcid]

theorem sendMessage_error_surfaced_no_retraction_witness :
    (sendMessage storeEmpty "c1" "hi" .noMethod (.error "down") "u1" "p1" 5).error
      = some "down"
    ∧ (sendMessage storeEmpty "c1" "hi" .noMethod (.error "down") "u1" "p1" 5).store.memory.map
        (fun c => c.messages.length)
      = storeEmpty.memory.map (fun c =>
          if c.id = "c1" then c.messages.length + 2 else c.messages.length) :=
  sendMessage_error_surfaced_no_retraction storeEmpty "c1" "hi" .noMethod "down"
    "u1" "p1" 5 rfl

/-! ## Claim C3 -/

/-- C3 counterexample: the claim says the persisted message equals the
text reconstructed from the fallback response alone; but when the stream
throws after having produced content, the code keeps the partial
`finalAnswer` and the fallback loop appends to it (`finalAnswer +=`),
so the persisted content is the concatenation `"xy"`, not `"y"`. -/
theorem sendMessage_fallback_concatenates_partial :
    ((sendMessage storeEmpty "c1" "hi"
        (.yields [.assistantMessage (some "m1") (.str "x")] true)
        (.ok (.arr [.assistantMessage none (.str "y")])) "u1" "p1" 5).store.memory.map
      (fun c => c.messages.map Message.content)) = [["hi", "xy"]]
    ∧ fallbackAnswer (responseMessagesOf (.arr [.assistantMessage none (.str "y")])) = "y"
    ∧ ("xy" : String) ≠ "y" := by
  refine ⟨by decide, by decide, by decide⟩

/-- C3 amended: when the streaming attempt fails, `sendMessage` issues
exactly one non-streaming request, surfaces no error when that request
succeeds, and persists into the in-flight assistant message the answer
text the failed streaming attempt had already accumulated
(`answerBeforeFallback`, empty when no streaming method was available or
the stream request threw before yielding content) concatenated with the
text reconstructed from the fallback response's assistant-message
events. -/
theorem sendMessage_single_fallback_reconstruction
    (store : ConversationStore) (cid text : String) (attempt : StreamAttempt)
    (response : CreateResponse) (uid phId : String) (now : Nat)
    (conv : Conversation) (hconv : conv ∈ store.memory) (hid : conv.id = cid)
    (hfail : streamFailed attempt = true) :
    (sendMessage store cid text attempt (.ok response) uid phId now).createCalls = 1
    ∧ (sendMessage store cid text attempt (.ok response) uid phId now).error = none
    ∧ ∃ conv' ∈ (sendMessage store cid text attempt (.ok response) uid phId now).store.memory,
        conv'.id = cid
        ∧ conv'.messages.getLast?.map Message.content
            = some (answerBeforeFallback attempt
                ++ fallbackAnswer (responseMessagesOf response))
        ∧ conv'.messages.getLast?.map Message.role = some Role.assistant := by
  rw [sendMessage_ok_of_failed store cid text attempt response uid phId now hfail]
  refine ⟨rfl, rfl, ?_⟩
  obtain ⟨F, hFmem, hFid, hFlen, hFlast, hFclean⟩ :=
    streamStateAfter_store_memory cid now
      (storeAfterAppends store cid text uid phId now) attempt
  obtain ⟨conv2, hmem2, hid2, base, m, hmsgs2, hrole2, htc2⟩ :=
    storeAfterAppends_mem store cid text uid phId now conv hconv hid
  obtain ⟨m', hm', hrole', htc'⟩ := hFlast conv2 base m hmsgs2 hrole2 htc2
  have hmemF : F conv2 ∈ (streamStateAfter cid now
      (storeAfterAppends store cid text uid phId now) attempt).store.memory := by
    rw [hFmem]
    exact List.mem_map_of_mem _ hmem2
  have hidF : (F conv2).id = cid := by
    rw [hFid]
    exact hid2
  rw [← streamStateAfter_finalAnswer cid now
    (storeAfterAppends store cid text uid phId now) attempt]
  exact updateLastMessage_persist_last _ cid _ _ now (F conv2) hmemF hidF
    base m' hm' hrole'

theorem sendMessage_single_fallback_reconstruction_witness :
    (sendMessage storeEmpty "c1" "hi" .noMethod
        (.ok (.arr [.assistantMessage none (.str "Hello")])) "u1" "p1" 5).createCalls = 1
    ∧ (sendMessage storeEmpty "c1" "hi" .noMethod
        (.ok (.arr [.assistantMessage none (.str "Hello")])) "u1" "p1" 5).error = none
    ∧ ∃ conv' ∈ (sendMessage storeEmpty "c1" "hi" .noMethod
          (.ok (.arr [.assistantMessage none (.str "Hello")])) "u1" "p1" 5).store.memory,
        conv'.id = "c1"
        ∧ conv'.messages.getLast?.map Message.content
            = some (answerBeforeFallback .noMethod
                ++ fallbackAnswer (responseMessagesOf
                    (.arr [.assistantMessage none (.str "Hello")])))
        ∧ conv'.messages.getLast?.map Message.role = some Role.assistant :=
  sendMessage_single_fallback_reconstruction storeEmpty "c1" "hi" .noMethod
    (.arr [.assistantMessage none (.str "Hello")]) "u1" "p1" 5 convEmpty
    (by decide) rfl rfl

/-! ## Claim C4 -/

/-- C4 counterexample: the claim says tool-invocation events are
collected into the result's tool-call list and deduplicated by
`toolCallId`; in the unified chat command's send loop there is no case
for `tool_call_message` at all, so a stream carrying two tool events for
the same `toolCallId` leaves every persisted message without any
recorded tool calls — nothing is collected, while the claim predicts a
deduplicated non-empty list. -/
theorem sendMessage_drops_tool_events :
    ((sendMessage storeEmpty "c1" "hi"
        (.yields [.toolCallMessage (some { name := "search", argumentsRaw := none,
                                           toolCallId := some "tc1" }),
                  .toolCallMessage (some { name := "search", argumentsRaw := none,
                                           toolCallId := some "tc1" })] false)
        (.ok (.arr [])) "u1" "p1" 5).store.memory.map
      (fun c => c.messages.map Message.toolCalls)) = [[none, none]]
    ∧ (some [({ name := "search", arguments := none,
                toolCallId := some "tc1" } : ToolCall)] : Option (List ToolCall)) ≠ none := by
  refine ⟨by decide, by decide⟩

/-- C4 amended: the send operation never records any tool call: if no
message in the store carries recorded tool calls before a send, the same
holds after it, whatever tool-invocation events the stream or fallback
response contained — tool events produce no state change, so in
particular repeated events for one `toolCallId` cannot produce duplicate
entries. -/
theorem sendMessage_ignores_tool_events
    (store : ConversationStore) (cid text : String) (attempt : StreamAttempt)
    (fallback : Except String CreateResponse) (uid phId : String) (now : Nat)
    (hclean : ∀ c ∈ store.memory, ∀ m ∈ c.messages, m.toolCalls = none) :
    ∀ c ∈ (sendMessage store cid text attempt fallback uid phId now).store.memory,
      ∀ m ∈ c.messages, m.toolCalls = none := by
  have happ : (storeAfterAppends store cid text uid phId now).memory
      = (store.memory.map (addMessageConv cid
          { role := Role.user, content := jsTrim text, timestamp := now,
            reasoning := none, toolCalls := none } uid now)).map
        (addMessageConv cid
          { role := Role.assistant, content := "", timestamp := now,
            reasoning := none, toolCalls := none } phId now) := rfl
  have hclean2 : ∀ c ∈ (storeAfterAppends store cid text uid phId now).memory,
      ∀ m ∈ c.messages, m.toolCalls = none := by
    intro c hc
    rw [happ] at hc
    rcases List.mem_map.mp hc with ⟨c1, hc1, rfl⟩
    rcases List.mem_map.mp hc1 with ⟨c0, hc0, rfl⟩
    exact addMessageConv_clean _ _ _ _ _ rfl
      (addMessageConv_clean _ _ _ _ _ rfl (hclean c0 hc0))
  obtain ⟨F, hFmem, hFid, hFlen, hFlast, hFclean⟩ :=
    streamStateAfter_store_memory cid now
      (storeAfterAppends store cid text uid phId now) attempt
  have hcleanA : ∀ c ∈ (streamStateAfter cid now
      (storeAfterAppends store cid text uid phId now) attempt).store.memory,
      ∀ m ∈ c.messages, m.toolCalls = none := by
    intro c hc
    rw [hFmem] at hc
    rcases List.mem_map.mp hc with ⟨c2, hc2, rfl⟩
    exact hFclean c2 (hclean2 c2 hc2)
  rcases sendMessage_store_cases store cid text attempt fallback uid phId now with
    hcase | ⟨A, R, hcase⟩
  · intro c hc
    rw [hcase] at hc
    exact hcleanA c hc
  · intro c hc
    rw [hcase] at hc
    have hupd : (updateLastMessage (streamStateAfter cid now
          (storeAfterAppends store cid text uid phId now) attempt).store
          cid A R true now).memory
        = (streamStateAfter cid now
            (storeAfterAppends store cid text uid phId now) attempt).store.memory.map
          (updateLastMessageConv cid A R now) := rfl
    rw [hupd] at hc
    rcases List.mem_map.mp hc with ⟨c2, hc2, rfl⟩
    exact updateLastMessageConv_clean _ _ _ _ _ (hcleanA c2 hc2)

/-- The conversation a tool-event-only send leaves behind, used to
instantiate the C4 theorem's conclusion at a concrete input. -/
def toolRunConv : Conversation :=
  { id := "c1", agentId := "a1", agentName := "Agent", agentColor := 0,
    accountId := "project1", accountName := "Default",
    messages := [{ id := "u1", role := Role.user, content := "hi",
                   timestamp := 5, reasoning := none, toolCalls := none },
                 { id := "p1", role := Role.assistant, content := "",
                   timestamp := 5, reasoning := some "", toolCalls := none }],
    title := some "hi", createdAt := 0, updatedAt := 5 }

theorem sendMessage_ignores_tool_events_witness :
    ({ id := "p1", role := Role.assistant, content := "", timestamp := 5,
       reasoning := some "", toolCalls := none } : Message).toolCalls = none :=
  sendMessage_ignores_tool_events storeEmpty "c1" "hi"
    (.yields [.toolCallMessage (some { name := "search", argumentsRaw := none,
                                       toolCallId := some "tc1" })] false)
    (.ok (.arr [])) "u1" "p1" 5 (by decide)
    toolRunConv (by decide)
    { id := "p1", role := Role.assistant, content := "", timestamp := 5,
      reasoning := some "", toolCalls := none } (by decide)

/-! ## Claim C1 -/

/-- C1: for every streamed event sequence the engine's answer equals the
specification's value — the concatenation, in discovery order, of each
message identifier's best-known (longest, earliest on ties) text; in
particular, for two content events with the same id where the second
strictly extends the first, the answer is the second text alone, not the
concatenation of both.  (Events whose assistant content carries no
identifier or extracts to the empty string contribute nothing, matching
the loop's truthiness guard.) -/
theorem streaming_best_text_per_id :
    (∀ (conversationId : String) (now : Nat) (store : ConversationStore)
        (events : List StreamEvent),
      (runStreamEvents conversationId now (initStreamState store) events).finalAnswer
        = specAnswer events)
    ∧ (runStreamEvents "c1" 0 (initStreamState { memory := [], disk := [] })
        [.assistantMessage (some "m1") (.str "Hi"),
         .assistantMessage (some "m1") (.str "Hi there")]).finalAnswer = "Hi there"
    ∧ ("Hi there" : String) ≠ "Hi" ++ "Hi there" :=
  ⟨runStreamEvents_finalAnswer_eq_specAnswer, by decide, by decide⟩

/-! ## Claim C7 -/

instance : IsTotal AgentSummary agentLe :=
  ⟨fun a b => by
    unfold agentLe
    rcases lt_trichotomy a.accountName b.accountName with h | h | h
    · exact Or.inl (Or.inl h)
    · rcases le_total a.name b.name with hn | hn
      · exact Or.inl (Or.inr ⟨h, hn⟩)
      · exact Or.inr (Or.inr ⟨h.symm, hn⟩)
    · exact Or.inr (Or.inl h)⟩

instance : IsTrans AgentSummary agentLe :=
  ⟨fun a b c hab hbc => by
    unfold agentLe at *
    rcases hab with h1 | ⟨h1, h1n⟩
    · rcases hbc with h2 | ⟨h2, h2n⟩
      · exact Or.inl (h1.trans h2)
      · exact Or.inl (h2 ▸ h1)
    · rcases hbc with h2 | ⟨h2, h2n⟩
      · apply Or.inl
        rw [h1]
        exact h2
      · exact Or.inr ⟨h1.trans h2, h1n.trans h2n⟩⟩

/-- C7: the three backend list-response shapes carrying identical agent
records normalise to identical flat lists, and the aggregated directory
is sorted by account display name then agent name.  Determinism for
identical inputs holds because `listAgents` is a pure function of its
arguments. -/
theorem agent_directory_normalizes_and_sorts :
    (∀ (account : LettaAccount) (records : List AgentRecord),
      fetchAgentsForAccount account (.ok (.plainArray records))
        = fetchAgentsForAccount account (.ok (.dataWrapper records))
      ∧ fetchAgentsForAccount account (.ok (.plainArray records))
        = fetchAgentsForAccount account (.ok (.asyncSeq records)))
    ∧ (∀ (accounts : List LettaAccount)
        (backend : LettaAccount → Option (Except String AgentListResponse)),
      List.Sorted agentLe (listAgents accounts backend)) :=
  ⟨fun _ _ => ⟨rfl, rfl⟩,
   fun _ _ => List.sorted_insertionSort agentLe _⟩

/-! ## Claim C8 -/

/-- C8: an account whose list request fails contributes the empty subset
and nothing else changes — the aggregate equals the aggregate computed
with the failing account absent. -/
theorem failing_account_isolated
    (pre post : List LettaAccount) (bad : LettaAccount)
    (backend : LettaAccount → Option (Except String AgentListResponse))
    (e : String) (hbad : backend bad = some (.error e)) :
    listAgents (pre ++ bad :: post) backend = listAgents (pre ++ post) backend := by
  unfold listAgents
  congr 1
  simp only [List.map_append, List.map_cons, List.flatten_append, List.flatten_cons]
  rw [show accountContribution backend bad = [] from by
    unfold accountContribution
    rw [hbad]
    rfl]
  simp

/-- Accounts and backend for the C8 witness: `project2`'s fetch fails. -/
def accountOkC8 : LettaAccount :=
  { id := "project1", name := "A", apiKey := "k1", baseUrl := none }

def accountBadC8 : LettaAccount :=
  { id := "project2", name := "B", apiKey := "k2", baseUrl := none }

def backendC8 : LettaAccount → Option (Except String AgentListResponse) :=
  fun a =>
    if a.id = "project2" then some (.error "network down")
    else some (.ok (.plainArray [{ id := "ag1", name := "Agent", description := none }]))

theorem failing_account_isolated_witness :
    listAgents [accountOkC8, accountBadC8] backendC8 = listAgents [accountOkC8] backendC8 :=
  failing_account_isolated [accountOkC8] [] accountBadC8 backendC8 "network down" rfl

/-! ## Claim C5 -/

/-- C5: for every conversation whose messages list is non-empty and whose
last message has role `user`, `updateLastMessage` maps each conversation
through `updateLastMessageConv`, and that per-conversation update leaves
the message list (hence the last message's content and reasoning, and the
message count) completely unchanged — it never appends or invents a
message. -/
theorem updateLastMessage_userLast_preserves_messages
    (store : ConversationStore) (conversationId content : String)
    (reasoning : Option String) (shouldSave : Bool) (now : Nat)
    (conv : Conversation) (hne : conv.messages ≠ [])
    (hrole : (conv.messages.getLast hne).role = Role.user) :
    (updateLastMessage store conversationId content reasoning shouldSave now).memory
      = store.memory.map (updateLastMessageConv conversationId content reasoning now)
    ∧ (updateLastMessageConv conversationId content reasoning now conv).messages
      = conv.messages := by
  refine ⟨rfl, ?_⟩
  unfold updateLastMessageConv
  by_cases hid : conv.id = conversationId
  · rw [if_pos hid, List.getLast?_eq_getLast_of_ne_nil hne]
    have hnotassistant : ¬(conv.messages.getLast hne).role = Role.assistant := by
      rw [hrole]
      decide
    simp only [if_neg hnotassistant]
  · rw [if_neg hid]

/-- Example conversation for the C5 witness: one user message last. -/
def convC5 : Conversation :=
  { id := "c1", agentId := "a1", agentName := "Agent", agentColor := 0,
    accountId := "project1", accountName := "Default",
    messages := [{ id := "m1", role := Role.user, content := "hello",
                   timestamp := 1, reasoning := none, toolCalls := none }],
    title := some "hello", createdAt := 1, updatedAt := 1 }

/-- Example store for the C5 witness. -/
def storeC5 : ConversationStore := { memory := [convC5], disk := [convC5] }

theorem updateLastMessage_userLast_preserves_messages_witness :
    (updateLastMessage storeC5 "c1" "other" none false 7).memory
      = storeC5.memory.map (updateLastMessageConv "c1" "other" none 7)
    ∧ (updateLastMessageConv "c1" "other" none 7 convC5).messages
      = convC5.messages :=
  updateLastMessage_userLast_preserves_messages storeC5 "c1" "other" none false 7
    convC5 (by decide) (by decide)

/-! ## Claim C6 -/

/-- A 50-character first user message whose last character is a space. -/
def fiftyCharContent : String := String.mk (List.replicate 49 'a') ++ " "

/-- A message carrying `fiftyCharContent`. -/
def fiftyCharMessage : Message :=
  { id := "m1", role := Role.user, content := fiftyCharContent,
    timestamp := 0, reasoning := none, toolCalls := none }

/-- C6 counterexample: the claim says a first user message of exactly 50
characters is preserved verbatim, but `generateConversationTitle` trims
the content first, so a 50-character content ending in a space yields a
49-character title different from the content. -/
theorem generateConversationTitle_not_verbatim_at_50 :
    fiftyCharContent.length = 50
    ∧ generateConversationTitle [fiftyCharMessage] ≠ fiftyCharContent := by
  constructor
  · decide
  · decide

/-- C6 amended: the title is computed from the *trimmed* first user
message content: `"New Conversation"` when no user message exists; the
trimmed content itself (hence verbatim only up to trimming) when the
trimmed content has at most 50 characters — in particular exactly 50;
and the trimmed content's first 47 characters followed by the
3-character `"..."` when it has 51 characters or more. -/
theorem generateConversationTitle_spec (messages : List Message) :
    (messages.find? (fun m => decide (m.role = Role.user)) = none →
      generateConversationTitle messages = "New Conversation")
    ∧ (∀ m, messages.find? (fun x => decide (x.role = Role.user)) = some m →
        ((jsTrim m.content).length = 50 →
          generateConversationTitle messages = jsTrim m.content)
        ∧ (51 ≤ (jsTrim m.content).length →
          generateConversationTitle messages =
            String.mk ((jsTrim m.content).data.take 47) ++ "...")) := by
  constructor
  · intro hnone
    unfold generateConversationTitle
    rw [hnone]
  · intro m hfind
    constructor
    · intro h50
      unfold generateConversationTitle
      rw [hfind]
      simp only
      rw [if_pos (by rw [h50])]
    · intro h51
      unfold generateConversationTitle
      rw [hfind]
      simp only
      rw [if_neg (by omega)]

/-- A 51-character user message without surrounding whitespace. -/
def fiftyOneCharMessage : Message :=
  { id := "m1", role := Role.user, content := String.mk (List.replicate 51 'b'),
    timestamp := 0, reasoning := none, toolCalls := none }

theorem generateConversationTitle_spec_witness :
    generateConversationTitle [fiftyOneCharMessage] =
      String.mk ((jsTrim fiftyOneCharMessage.content).data.take 47) ++ "..." :=
  ((generateConversationTitle_spec [fiftyOneCharMessage]).2 fiftyOneCharMessage
    (by decide)).2 (by decide)

/-! ## Claim C9 -/

theorem mem_optionalProject (pid n k b : String) (a : LettaAccount)
    (h : a ∈ optionalProject pid n k b) :
    a = { id := pid, name := n, apiKey := k, baseUrl := baseUrlOrNone b }
      ∧ n ≠ "" ∧ k ≠ "" := by
  unfold optionalProject at h
  split at h
  case isTrue hc => exact ⟨List.mem_singleton.mp h, hc⟩
  case isFalse => simp at h

/-- C9: an optional account (projects 2–5) is parsed exactly when both
its name and its API key are non-empty; the primary account is parsed
exactly when its API key is non-empty, and its display name falls back
to `"Default"` (`jsOrS` is JS `||`) when the configured name is empty. -/
theorem parseAccounts_spec (prefs : MultiAccountPreferences) :
    ((∃ a ∈ parseAccounts prefs, a.id = "project1") ↔ prefs.project1ApiKey ≠ "")
    ∧ ((∃ a ∈ parseAccounts prefs, a.id = "project2") ↔
        (prefs.project2Name ≠ "" ∧ prefs.project2ApiKey ≠ ""))
    ∧ ((∃ a ∈ parseAccounts prefs, a.id = "project3") ↔
        (prefs.project3Name ≠ "" ∧ prefs.project3ApiKey ≠ ""))
    ∧ ((∃ a ∈ parseAccounts prefs, a.id = "project4") ↔
        (prefs.project4Name ≠ "" ∧ prefs.project4ApiKey ≠ ""))
    ∧ ((∃ a ∈ parseAccounts prefs, a.id = "project5") ↔
        (prefs.project5Name ≠ "" ∧ prefs.project5ApiKey ≠ ""))
    ∧ (∀ a ∈ parseAccounts prefs, a.id = "project1" →
        a.name = jsOrS prefs.project1Name "Default") := by
  have hsplit : ∀ a : LettaAccount, a ∈ parseAccounts prefs ↔
      (a ∈ (if prefs.project1ApiKey ≠ "" then
              [{ id := "project1", name := jsOrS prefs.project1Name "Default",
                 apiKey := prefs.project1ApiKey,
                 baseUrl := baseUrlOrNone prefs.project1BaseUrl }]
            else [])
        ∨ a ∈ optionalProject "project2" prefs.project2Name prefs.project2ApiKey prefs.project2BaseUrl
        ∨ a ∈ optionalProject "project3" prefs.project3Name prefs.project3ApiKey prefs.project3BaseUrl
        ∨ a ∈ optionalProject "project4" prefs.project4Name prefs.project4ApiKey prefs.project4BaseUrl
        ∨ a ∈ optionalProject "project5" prefs.project5Name prefs.project5ApiKey prefs.project5BaseUrl) := by
    intro a
    simp [parseAccounts, List.mem_append, or_assoc]
  have hprimary : ∀ a : LettaAccount,
      a ∈ (if prefs.project1ApiKey ≠ "" then
              [{ id := "project1", name := jsOrS prefs.project1Name "Default",
                 apiKey := prefs.project1ApiKey,
                 baseUrl := baseUrlOrNone prefs.project1BaseUrl }]
            else []) →
      a = { id := "project1", name := jsOrS prefs.project1Name "Default",
            apiKey := prefs.project1ApiKey,
            baseUrl := baseUrlOrNone prefs.project1BaseUrl }
        ∧ prefs.project1ApiKey ≠ "" := by
    intro a ha
    split at ha
    case isTrue hc => exact ⟨List.mem_singleton.mp ha, hc⟩
    case isFalse => simp at ha
  have hproj : ∀ (pid : String),
      (∃ a ∈ parseAccounts prefs, a.id = pid) ↔
      ((pid = "project1" ∧ prefs.project1ApiKey ≠ "")
        ∨ (pid = "project2" ∧ prefs.project2Name ≠ "" ∧ prefs.project2ApiKey ≠ "")
        ∨ (pid = "project3" ∧ prefs.project3Name ≠ "" ∧ prefs.project3ApiKey ≠ "")
        ∨ (pid = "project4" ∧ prefs.project4Name ≠ "" ∧ prefs.project4ApiKey ≠ "")
        ∨ (pid = "project5" ∧ prefs.project5Name ≠ "" ∧ prefs.project5ApiKey ≠ "")) := by
    intro pid
    constructor
    · rintro ⟨a, ha, hid⟩
      rcases (hsplit a).mp ha with h | h | h | h | h
      · obtain ⟨rfl, hk⟩ := hprimary a h
        exact Or.inl ⟨hid.symm, hk⟩
      · obtain ⟨rfl, hn, hk⟩ := mem_optionalProject _ _ _ _ _ h
        exact Or.inr (Or.inl ⟨hid.symm, hn, hk⟩)
      · obtain ⟨rfl, hn, hk⟩ := mem_optionalProject _ _ _ _ _ h
        exact Or.inr (Or.inr (Or.inl ⟨hid.symm, hn, hk⟩))
      · obtain ⟨rfl, hn, hk⟩ := mem_optionalProject _ _ _ _ _ h
        exact Or.inr (Or.inr (Or.inr (Or.inl ⟨hid.symm, hn, hk⟩)))
      · obtain ⟨rfl, hn, hk⟩ := mem_optionalProject _ _ _ _ _ h
        exact Or.inr (Or.inr (Or.inr (Or.inr ⟨hid.symm, hn, hk⟩)))
    · rintro (⟨rfl, hk⟩ | ⟨rfl, hn, hk⟩ | ⟨rfl, hn, hk⟩ | ⟨rfl, hn, hk⟩ | ⟨rfl, hn, hk⟩)
      · refine ⟨{ id := "project1", name := jsOrS prefs.project1Name "Default",
                   apiKey := prefs.project1ApiKey,
                   baseUrl := baseUrlOrNone prefs.project1BaseUrl },
          (hsplit _).mpr (Or.inl ?_), rfl⟩
        rw [if_pos hk]
        exact List.mem_singleton_self _
      · refine ⟨{ id := "project2", name := prefs.project2Name,
                   apiKey := prefs.project2ApiKey,
                   baseUrl := baseUrlOrNone prefs.project2BaseUrl },
          (hsplit _).mpr (Or.inr (Or.inl ?_)), rfl⟩
        rw [optionalProject, if_pos ⟨hn, hk⟩]
        exact List.mem_singleton_self _
      · refine ⟨{ id := "project3", name := prefs.project3Name,
                   apiKey := prefs.project3ApiKey,
                   baseUrl := baseUrlOrNone prefs.project3BaseUrl },
          (hsplit _).mpr (Or.inr (Or.inr (Or.inl ?_))), rfl⟩
        rw [optionalProject, if_pos ⟨hn, hk⟩]
        exact List.mem_singleton_self _
      · refine ⟨{ id := "project4", name := prefs.project4Name,
                   apiKey := prefs.project4ApiKey,
                   baseUrl := baseUrlOrNone prefs.project4BaseUrl },
          (hsplit _).mpr (Or.inr (Or.inr (Or.inr (Or.inl ?_)))), rfl⟩
        rw [optionalProject, if_pos ⟨hn, hk⟩]
        exact List.mem_singleton_self _
      · refine ⟨{ id := "project5", name := prefs.project5Name,
                   apiKey := prefs.project5ApiKey,
                   baseUrl := baseUrlOrNone prefs.project5BaseUrl },
          (hsplit _).mpr (Or.inr (Or.inr (Or.inr (Or.inr ?_)))), rfl⟩
        rw [optionalProject, if_pos ⟨hn, hk⟩]
        exact List.mem_singleton_self _
  refine ⟨?_, ?_, ?_, ?_, ?_, ?_⟩
  · rw [hproj "project1"]
    constructor
    · rintro (⟨-, hk⟩ | ⟨h, -⟩ | ⟨h, -⟩ | ⟨h, -⟩ | ⟨h, -⟩)
      · exact hk
      all_goals exact absurd h (by decide)
    · exact fun hk => Or.inl ⟨rfl, hk⟩
  · rw [hproj "project2"]
    constructor
    · rintro (⟨h, -⟩ | ⟨-, hnk⟩ | ⟨h, -⟩ | ⟨h, -⟩ | ⟨h, -⟩)
      · exact absurd h (by decide)
      · exact hnk
      all_goals exact absurd h (by decide)
    · exact fun hnk => Or.inr (Or.inl ⟨rfl, hnk⟩)
  · rw [hproj "project3"]
    constructor
    · rintro (⟨h, -⟩ | ⟨h, -⟩ | ⟨-, hnk⟩ | ⟨h, -⟩ | ⟨h, -⟩)
      · exact absurd h (by decide)
      · exact absurd h (by decide)
      · exact hnk
      all_goals exact absurd h (by decide)
    · exact fun hnk => Or.inr (Or.inr (Or.inl ⟨rfl, hnk⟩))
  · rw [hproj "project4"]
    constructor
    · rintro (⟨h, -⟩ | ⟨h, -⟩ | ⟨h, -⟩ | ⟨-, hnk⟩ | ⟨h, -⟩)
      · exact absurd h (by decide)
      · exact absurd h (by decide)
      · exact absurd h (by decide)
      · exact hnk
      · exact absurd h (by decide)
    · exact fun hnk => Or.inr (Or.inr (Or.inr (Or.inl ⟨rfl, hnk⟩)))
  · rw [hproj "project5"]
    constructor
    · rintro (⟨h, -⟩ | ⟨h, -⟩ | ⟨h, -⟩ | ⟨h, -⟩ | ⟨-, hnk⟩)
      · exact absurd h (by decide)
      · exact absurd h (by decide)
      · exact absurd h (by decide)
      · exact absurd h (by decide)
      · exact hnk
    · exact fun hnk => Or.inr (Or.inr (Or.inr (Or.inr ⟨rfl, hnk⟩)))
  · intro a ha hid
    rcases (hsplit a).mp ha with h | h | h | h | h
    · obtain ⟨rfl, -⟩ := hprimary a h
      rfl
    · obtain ⟨rfl, -, -⟩ := mem_optionalProject _ _ _ _ _ h
      have hlit : ("project2" : String) = "project1" := hid
      exact absurd hlit (by decide)
    · obtain ⟨rfl, -, -⟩ := mem_optionalProject _ _ _ _ _ h
      have hlit : ("project3" : String) = "project1" := hid
      exact absurd hlit (by decide)
    · obtain ⟨rfl, -, -⟩ := mem_optionalProject _ _ _ _ _ h
      have hlit : ("project4" : String) = "project1" := hid
      exact absurd hlit (by decide)
    · obtain ⟨rfl, -, -⟩ := mem_optionalProject _ _ _ _ _ h
      have hlit : ("project5" : String) = "project1" := hid
      exact absurd hlit (by decide)

/-- Example preferences for the C9 witness: primary name missing (falls
back to `"Default"`), project 2 fully configured, the rest absent. -/
def prefsC9 : MultiAccountPreferences :=
  { project1Name := "", project1ApiKey := "key1", project1BaseUrl := "",
    project2Name := "Work", project2ApiKey := "key2", project2BaseUrl := "",
    project3Name := "", project3ApiKey := "", project3BaseUrl := "",
    project4Name := "OnlyName", project4ApiKey := "", project4BaseUrl := "",
    project5Name := "", project5ApiKey := "key5", project5BaseUrl := "",
    showReasoning := true }

theorem parseAccounts_spec_witness :
    ({ id := "project1", name := "Default", apiKey := "key1",
       baseUrl := none } : LettaAccount).name = jsOrS prefsC9.project1Name "Default" :=
  (parseAccounts_spec prefsC9).2.2.2.2.2
    { id := "project1", name := "Default", apiKey := "key1", baseUrl := none }
    (by decide) (by decide)

/-! ## Claim C10 -/

/-- C10: `updateLastMessage` on an existing conversation with a
non-empty messages list sets that conversation's `updatedAt` to the
current time — also when the last message's role is `user` and its
content stays untouched — and with `shouldSave = false` the new state
exists in memory only: the persisted copy is unchanged. -/
theorem updateLastMessage_touches_updatedAt_memory_only
    (store : ConversationStore) (conversationId content : String)
    (reasoning : Option String) (now : Nat)
    (conv : Conversation) (hid : conv.id = conversationId)
    (hne : conv.messages ≠ []) :
    (updateLastMessageConv conversationId content reasoning now conv).updatedAt = now
    ∧ (updateLastMessage store conversationId content reasoning false now).memory
        = store.memory.map (updateLastMessageConv conversationId content reasoning now)
    ∧ (updateLastMessage store conversationId content reasoning false now).disk
        = store.disk := by
  refine ⟨?_, rfl, rfl⟩
  unfold updateLastMessageConv
  rw [if_pos hid, List.getLast?_eq_getLast_of_ne_nil hne]
  simp only
  split <;> rfl

theorem updateLastMessage_touches_updatedAt_memory_only_witness :
    (updateLastMessageConv "c1" "live update" none 9 convC5).updatedAt = 9
    ∧ (updateLastMessage storeC5 "c1" "live update" none false 9).memory
        = storeC5.memory.map (updateLastMessageConv "c1" "live update" none 9)
    ∧ (updateLastMessage storeC5 "c1" "live update" none false 9).disk
        = storeC5.disk :=
  updateLastMessage_touches_updatedAt_memory_only storeC5 "c1" "live update" none 9
    convC5 (by decide) (by decide)

end LettaRaycast
